import Mathlib

/-!
The dispatch engine of qplot and its process channel.

A shallow embedding of `src/qplot/subprocess.h` (class `Subprocess`) and
`src/qplot/qplot.h` (class `Qplot`, `PythonHeader`, `addPrivateHeader`), and proofs of
the properties the specification states of them.

* The operating system is an oracle `OS` that answers the calls made by the
  `Subprocess` constructor and destructor. Every call is recorded in a trace, in
  which the channels are numbered in order of construction; the numbers are not
  program data.
* The text stream `cfout_` is represented by the buffer it is bound to. Text inserted
  while it is bound to its own `cf_outbuffer` is an event of the trace (the characters
  handed to `fwrite`); text inserted while it is bound to the buffer of `header_` is
  appended to `header_`. Delivery by the operating system is not modelled.
* Client code (the style and plottable types, and the traits they specialise) is a
  record `Client`. A style callable is represented by the insertions it makes into
  `out()` and `data_out()` of the channel it is given; they may depend on the state of
  the style, on the object, on the backend and on the descriptors `fd_r()`, `fd_w()`.
  A callable has no access to the members of the adapter.
* `util.h` is included by `qplot.h` and is not among the sources. What `qplot.h` uses
  of it (`is_canvas_style`, `is_object_style`, `tuple_contains_type`, `TupleUpdater`)
  is a field of `Client` or is modelled from the specification, as marked.
* A template instantiation that does not exist (the call would not compile)
  evaluates to `Fault.illFormed`; the `assert(false)` after a failed `popen`
  evaluates to `Fault.aborted` (the build without `NDEBUG`).
-/

namespace qp

/-! ## subprocess.h -/

/-- Backend tag types `Null`, `Cat`, `Python`, `Gnuplot`. -/
inductive Backend where
  | Null
  | Cat
  | Python
  | Gnuplot
deriving DecidableEq, Repr

/-- The static member `T::cmd` (the build without `QPLOT_DEBUG`, which qplot.h leaves
commented out). -/
def Backend.cmd : Backend → String
  | .Null => "cat > /dev/null"
  | .Cat => "cat"
  | .Python => "python"
  | .Gnuplot => "gnuplot"

/-- A value of a client type: the identifier of its C++ type and its state. -/
structure Value where
  ty : Nat
  val : String
deriving DecidableEq, Repr

/-- An argument of `plot`, `addToHeader` or the constructor: either the `PythonHeader`
object of qplot.h or a value of a client type. -/
inductive Arg where
  | pythonHeader
  | user (v : Value)
deriving DecidableEq, Repr

/-- What happens outside the adapter object. Every `Subprocess` ever constructed is
numbered in order of construction; `id` below is that number. -/
inductive Event where
  /-- Result of `pipe(filedes_)` in the constructor. -/
  | pipe (id : Nat) (ok : Bool)
  /-- Result of `popen(T::cmd, "w")` in the constructor. -/
  | popen (id : Nat) (cmd : String) (ok : Bool)
  /-- Result of `close(filedes_[0])` in the constructor. -/
  | closeRead (id : Nat) (ok : Bool)
  /-- Result of `close(filedes_[1])` in the destructor. -/
  | closeWrite (id : Nat) (ok : Bool)
  /-- The destructor ran `pclose(file_)`. -/
  | pclose (id : Nat)
  /-- Characters handed through `cf_outbuffer` to `file_`, the standard input of the process. -/
  | stdinWrite (id : Nat) (text : String)
  /-- Characters handed through `fdoutbuf` to `filedes_[1]`, the data pipe. -/
  | dataWrite (id : Nat) (bytes : String)
  /-- A diagnostic line on `std::cerr`. -/
  | cerr (msg : String)
  /-- A style callable was invoked: `style(channel)` when `obj` is `none`,
  `style(channel, obj)` otherwise. -/
  | call (style : Arg) (obj : Option Value)
deriving DecidableEq, Repr

/-- The answers of the operating system to the `n`-th constructed `Subprocess`. -/
structure OS where
  /-- Whether `pipe` succeeded. -/
  pipeOk : Nat → Bool
  /-- The content of `filedes_` after the call of `pipe`: read end, write end. -/
  filedes : Nat → Int × Int
  /-- Whether `popen` returned a stream. -/
  popenOk : Nat → Bool
  /-- Whether `close(filedes_[0])` succeeded. -/
  closeReadOk : Nat → Bool
  /-- Whether `close(filedes_[1])` succeeded. -/
  closeWriteOk : Nat → Bool

/-- Why an evaluation yields no state. -/
inductive Fault where
  /-- No such template instantiation: the call does not compile. -/
  | illFormed
  /-- The `assert(false)` after a failed `popen`. -/
  | aborted
deriving DecidableEq, Repr

/-- The environment of the adapter: everything that happened so far and the number of
`Subprocess` objects constructed so far. -/
structure World where
  trace : List Event
  spawned : Nat
deriving DecidableEq, Repr

/-- Append one event to the trace. -/
def World.log (w : World) (e : Event) : World :=
  { w with trace := w.trace ++ [e] }

/-- The stream buffer `cfout_` currently writes to: its own `cf_outbuffer` over `file_`,
or the `stringbuf` of the adapter's `header_`. -/
inductive Rdbuf where
  | own
  | header
deriving DecidableEq, Repr

/-- The members of `Subprocess<T>`. `file_` is the process numbered `id`; `cfout_` is
represented by the buffer it is bound to, `fdout_` always writes to `filedes_[1]`. -/
structure Subprocess where
  id : Nat
  filedes_ : Int × Int
  rdbuf : Rdbuf
deriving DecidableEq, Repr

/-- Accessor `fd_r()`. -/
def Subprocess.fd_r (p : Subprocess) : Int := p.filedes_.1

/-- Accessor `fd_w()`. -/
def Subprocess.fd_w (p : Subprocess) : Int := p.filedes_.2

/-- Constructor `Subprocess()`. -/
def Subprocess.new (os : OS) (P : Backend) (w : World) : Except Fault (Subprocess × World) :=
  let n := w.spawned
  let w0 : World := { w with spawned := n + 1 }
  -- Open a new pipe
  let w1 := w0.log (.pipe n (os.pipeOk n))
  let w2 := if os.pipeOk n then w1 else w1.log (.cerr "pipe() returned with error\n")
  -- Fork process
  let w3 := w2.log (.popen n P.cmd (os.popenOk n))
  if os.popenOk n then
    -- Close unused read end on this process
    let w4 := w3.log (.closeRead n (os.closeReadOk n))
    let w5 := if os.closeReadOk n then w4 else w4.log (.cerr "error closing filedes[0]\n")
    .ok ({ id := n, filedes_ := os.filedes n, rdbuf := .own }, w5)
  else
    .error .aborted

/-- Destructor `~Subprocess()`. -/
def Subprocess.destroy (os : OS) (p : Subprocess) (w : World) : World :=
  -- Close 'data' pipe
  let w1 := w.log (.closeWrite p.id (os.closeWriteOk p.id))
  let w2 := if os.closeWriteOk p.id then w1
    else w1.log (.cerr "close(filedes_[1]) returned with error\n")
  -- Close process
  w2.log (.pclose p.id)

/-- Modelled from the spec: `Subprocess::numChannels()`, which `PythonHeader` calls and
subprocess.h does not declare. The spec: one block "per logical data channel the adapter
manages (here: exactly one)". -/
def Subprocess.numChannels (_p : Subprocess) : Nat := 1

/-- Modelled from the spec: the indexed accessor `fd_r(i)`, which `PythonHeader` calls and
subprocess.h does not declare; the channel has one pipe, whose read end it is. -/
def Subprocess.fd_r_at (p : Subprocess) (_i : Nat) : Int := p.fd_r

/-- Modelled from the spec: the indexed accessor `fd_w(i)`, which `PythonHeader` calls and
subprocess.h does not declare; the channel has one pipe, whose write end it is. -/
def Subprocess.fd_w_at (p : Subprocess) (_i : Nat) : Int := p.fd_w

/-! ## Client code -/

/-- One insertion made by a style callable: into `out()` (equally `operator<<` on the
`Subprocess`), or into `data_out()`. -/
inductive Write where
  | out (text : String)
  | data_out (bytes : String)
deriving DecidableEq, Repr

/-- A variant type `qp::variant<first, others...>`: the identifiers of its alternatives. -/
structure VariantTy where
  first : Nat
  others : List Nat
deriving DecidableEq, Repr

/-- The alternatives of a variant type. -/
def VariantTy.alts (V : VariantTy) : List Nat := V.first :: V.others

/-- What client code supplies: the traits of util.h evaluated on its types, the
specialisations of `has_styles`, and the call operators of its styles, each given by the
insertions it makes into the channel. -/
structure Client where
  /-- The trait `is_canvas_style<T,P>::value` on a client type. -/
  is_canvas_style : Nat → Backend → Bool
  /-- The trait `is_object_style<T,P>::value` on a client type. -/
  is_object_style : Nat → Backend → Bool
  /-- The specialisation `has_styles<T>::type`, when client code declares one. -/
  has_styles : Nat → Option VariantTy
  /-- State of a value-initialised object of a style type. -/
  defaultState : Nat → String
  /-- The insertions `style(channel)` makes, given `fd_r()` and `fd_w()` of the channel. -/
  canvasCall : Value → Backend → Int → Int → List Write
  /-- The insertions `style(channel, obj)` makes. -/
  objectCall : Value → Value → Backend → Int → Int → List Write

/-! ## qplot.h -/

/-- The metafunction `get_styles`: the accumulated tuple `Xs...` and the remaining types. -/
def get_styles (c : Client) : List VariantTy → List Nat → Option (List VariantTy)
  | xs, [] => some xs
  | xs, u :: ts =>
    match c.has_styles u with
    | none => none
    | some v => get_styles c (xs ++ [v]) ts

/-- The alias `styles_from_types<Tuple>`: one variant type per plottable type of `X`. -/
def styles_from_types (c : Client) (X : List Nat) : Option (List VariantTy) :=
  get_styles c [] X

/-- A tuple of type `S`: one variant value per slot. -/
abbrev Table (S : List VariantTy) := Fin S.length → Value

/-- A value-initialised tuple of type `S`: every variant holds its first alternative,
value-initialised. -/
def Table.init (c : Client) (S : List VariantTy) : Table S :=
  fun i => { ty := (S.get i).first, val := c.defaultState (S.get i).first }

/-- Modelled from the spec: the trait `is_canvas_style<T,P>` of util.h on the type
`PythonHeader`. The spec: a canvas-style is a callable "invocable as `style(channel)`";
`PythonHeader` declares `operator()(Subprocess<Python>&)` and no other call operator.
On a client type the value comes from `Client`. -/
def is_canvas_style (c : Client) (P : Backend) : Arg → Bool
  | .pythonHeader => decide (P = .Python)
  | .user v => c.is_canvas_style v.ty P

/-- Modelled from the spec: the trait `is_object_style<T,P>` of util.h on the type
`PythonHeader`, which has no call operator taking an object. On a client type the value
comes from `Client`. -/
def is_object_style (c : Client) (P : Backend) : Arg → Bool
  | .pythonHeader => false
  | .user v => c.is_object_style v.ty P

/-- Modelled from the spec: `tuple_contains_type<V, S>::value` of util.h, "the compile-time
index of `T`'s associated variant type within the style table"; no value when `V` is not
an element type of `S`. -/
def tuple_contains_type (V : VariantTy) (S : List VariantTy) : Option (Fin S.length) :=
  if h : S.indexOf V < S.length then some ⟨S.indexOf V, h⟩ else none

/-- Modelled from the spec: `TupleUpdater<T, S, N>::update` of util.h. The spec: "examine
every slot of the style table; for each slot whose variant type-set includes `T`, replace
that slot's current value with `T`'s value. Slots whose variant type-set does not
include `T` are left untouched." -/
def TupleUpdater.update {S : List VariantTy} (styles : Table S) : Arg → Table S
  | .pythonHeader => styles
  | .user style => fun i => if style.ty ∈ (S.get i).alts then style else styles i

/-- The call operator `PythonHeader::operator()`: one entry per `<<`. -/
def PythonHeader (python : Subprocess) : List Write :=
  [ .out "# This header has been added by Qplot. See qplot.h\n",
    .out "import os\n",
    .out "qp_data_in = list()\n",
    .out "\n" ] ++
  ((List.range python.numChannels).map fun i =>
    [ .out "os.close(", .out (toString (python.fd_w_at i)), .out ")\n",
      .out "qp_data_in.append(os.fdopen(", .out (toString (python.fd_r_at i)),
      .out ", 'r'))\n",
      .out "\n" ]).flatten

/-- The members of `Qplot<P,X>`, where `S = styles_from_types<X>`. -/
structure Qplot (S : List VariantTy) where
  subprocess_ : Subprocess
  header_ : String
  styles_ : Table S
  stylesHeader_ : Table S

/-- The adapter object together with its environment. -/
structure Sys (S : List VariantTy) where
  qp : Qplot S
  env : World

/-- Assignment to the member `styles_`. -/
def Sys.setStyles {S : List VariantTy} (s : Sys S) (t : Table S) : Sys S :=
  let q := s.qp
  { s with qp := { q with styles_ := t } }

/-- Assignment to the member `stylesHeader_`. -/
def Sys.setStylesHeader {S : List VariantTy} (s : Sys S) (t : Table S) : Sys S :=
  let q := s.qp
  { s with qp := { q with stylesHeader_ := t } }

/-- New content of the buffer of `header_`. -/
def Sys.setHeader {S : List VariantTy} (s : Sys S) (h : String) : Sys S :=
  let q := s.qp
  { s with qp := { q with header_ := h } }

/-- The call `subprocess_->out().rdbuf(b)`. -/
def Sys.setRdbuf {S : List VariantTy} (s : Sys S) (b : Rdbuf) : Sys S :=
  let q := s.qp
  let p := q.subprocess_
  { s with qp := { q with subprocess_ := { p with rdbuf := b } } }

/-- Record one event in the environment. -/
def Sys.log {S : List VariantTy} (s : Sys S) (e : Event) : Sys S :=
  let w := s.env
  { s with env := w.log e }

/-- One insertion into `subprocess_->out()` or `subprocess_->data_out()`. Text goes to
whichever buffer `cfout_` is bound to. -/
def Sys.put {S : List VariantTy} (s : Sys S) : Write → Sys S
  | .out text =>
    match s.qp.subprocess_.rdbuf with
    | .own => s.log (.stdinWrite s.qp.subprocess_.id text)
    | .header => s.setHeader (s.qp.header_ ++ text)
  | .data_out bytes => s.log (.dataWrite s.qp.subprocess_.id bytes)

/-- A sequence of insertions, in order. -/
def Sys.puts {S : List VariantTy} (s : Sys S) (ws : List Write) : Sys S :=
  ws.foldl Sys.put s

/-- The insertions made by the call `style(*subprocess_)`. -/
def canvasWrites (c : Client) (P : Backend) (p : Subprocess) : Arg → List Write
  | .pythonHeader => PythonHeader p
  | .user style => c.canvasCall style P p.fd_r p.fd_w

/-- The call `style(*subprocess_)`. -/
def Sys.callCanvas {S : List VariantTy} (c : Client) (P : Backend) (s : Sys S) (style : Arg) :
    Sys S :=
  (s.log (.call style none)).puts (canvasWrites c P s.qp.subprocess_ style)

/-- The call `style(*subprocess_, obj)` made by the visitor on the active alternative. -/
def Sys.callObject {S : List VariantTy} (c : Client) (P : Backend) (s : Sys S) (style obj : Value) :
    Sys S :=
  (s.log (.call (.user style) (some obj))).puts
    (c.objectCall style obj P s.qp.subprocess_.fd_r s.qp.subprocess_.fd_w)

/-- The constant `key` of the object overload,
`tuple_contains_type<typename has_styles<T>::type, S>::value`. qplot.h has no
specialisation `has_styles<PythonHeader>`. -/
def key (c : Client) (S : List VariantTy) : Arg → Option (Fin S.length)
  | .pythonHeader => none
  | .user obj =>
    match c.has_styles obj.ty with
    | none => none
    | some V => tuple_contains_type V S

/-- The overload set `Qplot::processArgs`. -/
def processArgs (c : Client) (P : Backend) {S : List VariantTy} :
    Sys S → List Arg → Except Fault (Sys S)
  | s, [] => .ok s
  | s, a :: args =>
    match is_canvas_style c P a, is_object_style c P a with
    | true, false =>
      -- Arg is a canvas-style only
      processArgs c P (s.callCanvas c P a) args
    | false, true =>
      -- Arg is an object-style only
      -- Update styles_ with this style for all variants in style_ that support it
      processArgs c P (s.setStyles (TupleUpdater.update s.qp.styles_ a)) args
    | true, true =>
      -- Arg is both an object-style and canvas_style
      let s1 := s.callCanvas c P a
      processArgs c P (s1.setStyles (TupleUpdater.update s1.qp.styles_ a)) args
    | false, false =>
      -- Arg is an object to plot
      match a with
      | .pythonHeader => .error .illFormed
      | .user obj =>
        match key c S (.user obj) with
        | none => .error .illFormed
        | some k =>
          -- Get the style variant that's currently associated with the arg type T
          let styleVar := s.qp.styles_ k
          -- Plot this object
          processArgs c P (s.callObject c P styleVar obj) args

/-- The statement `subprocess_->out() << header_.str()` of `plot`. -/
def Sys.replayHeader {S : List VariantTy} (s : Sys S) : Sys S :=
  s.put (.out s.qp.header_)

/-- The statement `styles_ = stylesHeader_` of `plot`. -/
def Sys.reloadStyles {S : List VariantTy} (s : Sys S) : Sys S :=
  s.setStyles s.qp.stylesHeader_

/-- The statements `subprocess_.reset()` and
`subprocess_ = std::make_unique<Subprocess<P>>()` of `plot`. -/
def Sys.respawn {S : List VariantTy} (os : OS) (P : Backend) (s : Sys S) : Except Fault (Sys S) :=
  -- destory first
  let q := s.qp
  let w := q.subprocess_.destroy os s.env
  match Subprocess.new os P w with
  | .error f => .error f
  | .ok (p, w1) => .ok { qp := { q with subprocess_ := p }, env := w1 }

/-- The member `Qplot::plot`. -/
def plot (c : Client) (os : OS) (P : Backend) {S : List VariantTy} (s : Sys S)
    (args : List Arg) : Except Fault (Sys S) :=
  -- Replay the header, reload state for the chosen alternatives, recurse into arguments
  match processArgs c P s.replayHeader.reloadStyles args with
  | .error f => .error f
  | .ok s3 =>
    -- Finally, close this process and reopen with a fresh instance
    s3.respawn os P

/-- The member `Qplot::addToHeader`. -/
def addToHeader (c : Client) (P : Backend) {S : List VariantTy} (s : Sys S)
    (args : List Arg) : Except Fault (Sys S) :=
  -- Everything to cfout goes to our local ostringstream
  let cout_buffer := s.qp.subprocess_.rdbuf
  let s1 := s.setRdbuf .header
  -- Also save the state of the chosen alternatives
  let s2 := s1.setStylesHeader s1.qp.styles_
  -- Capture in local header_ buffer
  match processArgs c P s2 args with
  | .error f => .error f
  | .ok s3 =>
    -- Swap back
    .ok (s3.setRdbuf cout_buffer)

/-- The overload set `addPrivateHeader`: `PythonHeader` for `Qplot<Python,S>`, nothing for
`Qplot<Gnuplot,S>` and for every other backend. -/
def addPrivateHeader (c : Client) (P : Backend) {S : List VariantTy} (s : Sys S) :
    Except Fault (Sys S) :=
  match P with
  | .Python => addToHeader c P s [.pythonHeader]
  | .Gnuplot => .ok s
  | _ => .ok s

/-- The constructor `Qplot(Ts&&... args)` of `Qplot<P,X>` where `styles_from_types<X>` is `S`,
run in the environment `w`. -/
def Qplot.new (c : Client) (os : OS) (P : Backend) (S : List VariantTy) (w : World)
    (args : List Arg) : Except Fault (Sys S) :=
  match Subprocess.new os P w with
  | .error f => .error f
  | .ok (p, w1) =>
    let s : Sys S :=
      { qp := { subprocess_ := p, header_ := "", styles_ := Table.init c S,
                stylesHeader_ := Table.init c S },
        env := w1 }
    match addPrivateHeader c P s with
    | .error f => .error f
    | .ok s1 => addToHeader c P s1 args

/-- The instantiation `Qplot<P,X>` and its constructor: the table type is derived from `X`. -/
def Qplot.make (c : Client) (os : OS) (P : Backend) (X : List Nat) (w : World)
    (args : List Arg) : Except Fault ((S : List VariantTy) × Sys S) :=
  match styles_from_types c X with
  | none => .error .illFormed
  | some S =>
    match Qplot.new c os P S w args with
    | .error f => .error f
    | .ok s => .ok ⟨S, s⟩

/-! ## Observations used to state the properties -/

/-- What one step of argument processing does to the outside: a call of a style, or one
insertion made during that call. -/
inductive Effect where
  | call (style : Arg) (obj : Option Value)
  | put (w : Write)
deriving DecidableEq, Repr

/-- Carry out one effect. -/
def Sys.apply {S : List VariantTy} (s : Sys S) : Effect → Sys S
  | .call style obj => s.log (.call style obj)
  | .put w => s.put w

/-- Carry out effects in order. -/
def Sys.run {S : List VariantTy} (s : Sys S) (es : List Effect) : Sys S :=
  es.foldl Sys.apply s

/-- The effects of `style(channel)`. -/
def canvasEffects (c : Client) (P : Backend) (p : Subprocess) (style : Arg) : List Effect :=
  .call style none :: (canvasWrites c P p style).map .put

/-- The effects of `style(channel, obj)`. -/
def objectEffects (c : Client) (P : Backend) (p : Subprocess) (style obj : Value) : List Effect :=
  .call (.user style) (some obj) :: (c.objectCall style obj P p.fd_r p.fd_w).map .put

/-- Whether `processArgs(a, ...)` has an overload whose body instantiates for `a`. -/
def instantiates (c : Client) (P : Backend) (S : List VariantTy) (a : Arg) : Bool :=
  is_canvas_style c P a || is_object_style c P a ||
    (match a with
     | .pythonHeader => false
     | .user _ => (key c S a).isSome)

/-- The live table after one argument. -/
def argTable (c : Client) (P : Backend) {S : List VariantTy} (tbl : Table S) (a : Arg) : Table S :=
  if is_object_style c P a then TupleUpdater.update tbl a else tbl

/-- The live table after a list of arguments. -/
def argsTable (c : Client) (P : Backend) {S : List VariantTy} (tbl : Table S) (args : List Arg) :
    Table S :=
  args.foldl (argTable c P) tbl

/-- The effects of one argument processed with live table `tbl` on channel `p`. -/
def argEffects (c : Client) (P : Backend) {S : List VariantTy} (p : Subprocess) (tbl : Table S)
    (a : Arg) : List Effect :=
  if is_canvas_style c P a then canvasEffects c P p a
  else if is_object_style c P a then []
  else
    match a with
    | .pythonHeader => []
    | .user obj =>
      match key c S (.user obj) with
      | none => []
      | some k => objectEffects c P p (tbl k) obj

/-- The effects of a list of arguments processed from live table `tbl` on channel `p`. -/
def argsEffects (c : Client) (P : Backend) {S : List VariantTy} (p : Subprocess) :
    Table S → List Arg → List Effect
  | _, [] => []
  | tbl, a :: rest => argEffects c P p tbl a ++ argsEffects c P p (argTable c P tbl a) rest

/-- The text inserted into `out()` by a list of effects. -/
def outText : List Effect → String
  | [] => ""
  | .put (.out t) :: es => t ++ outText es
  | _ :: es => outText es

/-- The events a list of effects causes on channel `id` while `cfout_` is bound to buffer
`b`: text inserted into `out()` reaches the process only through the channel's own buffer. -/
def effectEvents (b : Rdbuf) (id : Nat) : List Effect → List Event
  | [] => []
  | .call style obj :: es => .call style obj :: effectEvents b id es
  | .put (.out t) :: es =>
    match b with
    | .own => .stdinWrite id t :: effectEvents b id es
    | .header => effectEvents b id es
  | .put (.data_out d) :: es => .dataWrite id d :: effectEvents b id es

/-- The text that the standard input of process `id` received, in order. -/
def stdinText (id : Nat) : List Event → String
  | [] => ""
  | .stdinWrite i t :: es => if i = id then t ++ stdinText id es else stdinText id es
  | _ :: es => stdinText id es

/-- The effects of `addPrivateHeader` on channel `p`: the call of `PythonHeader` for the
Python backend, nothing for the others. -/
def bootstrap (P : Backend) (p : Subprocess) : List Effect :=
  match P with
  | .Python => .call .pythonHeader none :: (PythonHeader p).map .put
  | _ => []

/-- The channel an event belongs to, if any. -/
def Event.chan : Event → Option Nat
  | .pipe id _ => some id
  | .popen id _ _ => some id
  | .closeRead id _ => some id
  | .closeWrite id _ => some id
  | .pclose id => some id
  | .stdinWrite id _ => some id
  | .dataWrite id _ => some id
  | .cerr _ => none
  | .call _ _ => none

/-- Whether the event is a write of text or data to channel `id`. -/
def Event.isWriteTo (id : Nat) : Event → Bool
  | .stdinWrite i _ => i == id
  | .dataWrite i _ => i == id
  | _ => false

/-- Whether the event is the invocation of a style. -/
def Event.isCall : Event → Bool
  | .call _ _ => true
  | _ => false

/-- Whether the event is a diagnostic on `std::cerr`. -/
def Event.isDiag : Event → Bool
  | .cerr _ => true
  | _ => false

/-- The channels in existence after one more event: a channel exists from the first system
call of its constructor (`pipe`) to the last of its destructor (`pclose`). -/
def liveStep (l : List Nat) : Event → List Nat
  | .pipe id _ => l ++ [id]
  | .pclose id => l.erase id
  | _ => l

/-- The channels in existence at the end of a trace. -/
def live (tr : List Event) : List Nat :=
  tr.foldl liveStep []

/-- Starting with the channels `l` in existence, at no moment of the trace do two channels
exist. -/
def neverTwoFrom (l : List Nat) : List Event → Prop
  | [] => l.length ≤ 1
  | e :: es => l.length ≤ 1 ∧ neverTwoFrom (liveStep l e) es

/-- The events of the destructor of channel `p`. -/
def destroyEvents (os : OS) (p : Subprocess) : List Event :=
  (p.destroy os { trace := [], spawned := 0 }).trace

/-- The events of the constructor of the `n`-th channel. -/
def newEvents (os : OS) (P : Backend) (n : Nat) : List Event :=
  match Subprocess.new os P { trace := [], spawned := n } with
  | .ok (_, w) => w.trace
  | .error _ => []

/-- The environment at program start. -/
def World.init : World := { trace := [], spawned := 0 }

/-- A sequence of `plot` calls, one argument list each. -/
def plots (c : Client) (os : OS) (P : Backend) {S : List VariantTy} :
    Sys S → List (List Arg) → Except Fault (Sys S)
  | s, [] => .ok s
  | s, args :: rest =>
    match plot c os P s args with
    | .error f => .error f
    | .ok s1 => plots c os P s1 rest

/-- The adapter states a program can reach: construction at program start, then calls of
the public members `plot` and `addToHeader`. -/
inductive Reachable (c : Client) (os : OS) (P : Backend) {S : List VariantTy} : Sys S → Prop where
  | construct {args : List Arg} {s : Sys S} :
      Qplot.new c os P S World.init args = .ok s → Reachable c os P s
  | plot {s s1 : Sys S} {args : List Arg} :
      Reachable c os P s → plot c os P s args = .ok s1 → Reachable c os P s1
  | addToHeader {s s1 : Sys S} {args : List Arg} :
      Reachable c os P s → addToHeader c P s args = .ok s1 → Reachable c os P s1

/-- What holds of every reachable adapter state. -/
structure Inv {S : List VariantTy} (s : Sys S) : Prop where
  /-- The text stream is bound to the channel's own buffer. -/
  own : s.qp.subprocess_.rdbuf = .own
  /-- The channel is one of those constructed so far. -/
  id_lt : s.qp.subprocess_.id < s.env.spawned
  /-- Every channel named in the trace is one of those constructed so far. -/
  chan_lt : ∀ e ∈ s.env.trace, ∀ i, e.chan = some i → i < s.env.spawned
  /-- The process of the current channel has received no text yet. -/
  no_text : stdinText s.qp.subprocess_.id s.env.trace = ""
  /-- The current channel is the only one in existence. -/
  one_live : live s.env.trace = [s.qp.subprocess_.id]
  /-- At no moment did two channels exist. -/
  never_two : neverTwoFrom [] s.env.trace

/-- The style most recently set for slot `k` by an object-style argument of `pre`, if
any: the last object-style argument whose type is an alternative of the slot. -/
def lastSet (c : Client) (P : Backend) (S : List VariantTy) (k : Fin S.length) (pre : List Arg) :
    Option Value :=
  (pre.reverse.filterMap fun a =>
    match a with
    | .pythonHeader => none
    | .user v =>
      if c.is_object_style v.ty P = true ∧ v.ty ∈ (S.get k).alts then some v else none).head?

/-- The style that governs slot `k` after the arguments `pre`: the one most recently set
in `pre`, or the baseline slot if none was. -/
def styleFor (c : Client) (P : Backend) {S : List VariantTy} (baseline : Table S)
    (k : Fin S.length) (pre : List Arg) : Value :=
  (lastSet c P S k pre).getD (baseline k)

/-! ## A concrete client -/

/-- Client types: 1 a canvas-only title style, 2 an object-only scatter style, 3 a dual-role
line style, 4 an object-only bar style; plottable types 10 (point), 11 (curve), 12
(histogram). -/
def demoClient : Client where
  is_canvas_style ty _ := ty == 1 || ty == 3
  is_object_style ty _ := ty == 2 || ty == 3 || ty == 4
  has_styles ty :=
    if ty = 10 then some ⟨2, [3]⟩
    else if ty = 11 then some ⟨3, [2]⟩
    else if ty = 12 then some ⟨4, []⟩
    else none
  defaultState ty := "default" ++ toString ty
  canvasCall v _ _ _ := [.out ("canvas(" ++ v.val ++ ")\n")]
  objectCall st obj _ _ _ := [.out (st.val ++ "(" ++ obj.val ++ ")\n"), .data_out obj.val]

/-- An operating system in which every call succeeds; the `n`-th pipe gets the descriptors
`3 + 2n` and `4 + 2n`. -/
def demoOS : OS where
  pipeOk _ := true
  filedes n := (3 + 2 * n, 4 + 2 * n)
  popenOk _ := true
  closeReadOk _ := true
  closeWriteOk _ := true

/-- The table type `styles_from_types<std::tuple<point, curve, histogram>>`. -/
def demoS : List VariantTy := [⟨2, [3]⟩, ⟨3, [2]⟩, ⟨4, []⟩]

/-- The adapter `Qplot<Python, ...>` constructed at program start with the header arguments
`title("T")`, `line("L")`. -/
def demoState : Sys demoS :=
  { qp :=
      { subprocess_ := { id := 0, filedes_ := (3, 4), rdbuf := .own },
        header_ := "# This header has been added by Qplot. See qplot.h\nimport os\nqp_data_in = list()\n\nos.close(4)\nqp_data_in.append(os.fdopen(3, 'r'))\n\ncanvas(T)\ncanvas(L)\n",
        styles_ := TupleUpdater.update (Table.init demoClient demoS) (.user ⟨3, "L"⟩),
        stylesHeader_ := Table.init demoClient demoS },
    env :=
      { trace := [.pipe 0 true, .popen 0 "python" true, .closeRead 0 true,
                  .call .pythonHeader none, .call (.user ⟨1, "T"⟩) none,
                  .call (.user ⟨3, "L"⟩) none],
        spawned := 1 } }

/-! # Theorems -/

/-! ## Frame lemmas -/

section frame
variable {S : List VariantTy}

@[simp] theorem Sys.setStyles_qp (s : Sys S) (t : Table S) :
    (s.setStyles t).qp = { s.qp with styles_ := t } := rfl
@[simp] theorem Sys.setStyles_env (s : Sys S) (t : Table S) : (s.setStyles t).env = s.env := rfl
@[simp] theorem Sys.setStylesHeader_qp (s : Sys S) (t : Table S) :
    (s.setStylesHeader t).qp = { s.qp with stylesHeader_ := t } := rfl
@[simp] theorem Sys.setStylesHeader_env (s : Sys S) (t : Table S) :
    (s.setStylesHeader t).env = s.env := rfl
@[simp] theorem Sys.setHeader_qp (s : Sys S) (h : String) :
    (s.setHeader h).qp = { s.qp with header_ := h } := rfl
@[simp] theorem Sys.setHeader_env (s : Sys S) (h : String) : (s.setHeader h).env = s.env := rfl
@[simp] theorem Sys.setRdbuf_qp (s : Sys S) (b : Rdbuf) :
    (s.setRdbuf b).qp = { s.qp with subprocess_ := { s.qp.subprocess_ with rdbuf := b } } := rfl
@[simp] theorem Sys.setRdbuf_env (s : Sys S) (b : Rdbuf) : (s.setRdbuf b).env = s.env := rfl
@[simp] theorem Sys.log_qp (s : Sys S) (e : Event) : (s.log e).qp = s.qp := rfl
@[simp] theorem Sys.log_env (s : Sys S) (e : Event) : (s.log e).env = s.env.log e := rfl
@[simp] theorem World.log_trace (w : World) (e : Event) : (w.log e).trace = w.trace ++ [e] := rfl
@[simp] theorem World.log_spawned (w : World) (e : Event) : (w.log e).spawned = w.spawned := rfl

theorem Sys.put_subprocess (s : Sys S) (w : Write) :
    (s.put w).qp.subprocess_ = s.qp.subprocess_ := by
  cases w with
  | out t => simp only [Sys.put]; split <;> rfl
  | data_out b => rfl

theorem Sys.put_styles (s : Sys S) (w : Write) : (s.put w).qp.styles_ = s.qp.styles_ := by
  cases w with
  | out t => simp only [Sys.put]; split <;> rfl
  | data_out b => rfl

theorem Sys.put_stylesHeader (s : Sys S) (w : Write) :
    (s.put w).qp.stylesHeader_ = s.qp.stylesHeader_ := by
  cases w with
  | out t => simp only [Sys.put]; split <;> rfl
  | data_out b => rfl

theorem Sys.put_setStyles (s : Sys S) (t : Table S) (w : Write) :
    (s.setStyles t).put w = (s.put w).setStyles t := by
  cases w with
  | out x =>
    simp only [Sys.put, Sys.setStyles_qp]
    split <;> rfl
  | data_out b => rfl

theorem Sys.apply_subprocess (s : Sys S) (e : Effect) :
    (s.apply e).qp.subprocess_ = s.qp.subprocess_ := by
  cases e with
  | call st o => rfl
  | put w => exact Sys.put_subprocess s w

theorem Sys.apply_styles (s : Sys S) (e : Effect) : (s.apply e).qp.styles_ = s.qp.styles_ := by
  cases e with
  | call st o => rfl
  | put w => exact Sys.put_styles s w

theorem Sys.apply_stylesHeader (s : Sys S) (e : Effect) :
    (s.apply e).qp.stylesHeader_ = s.qp.stylesHeader_ := by
  cases e with
  | call st o => rfl
  | put w => exact Sys.put_stylesHeader s w

theorem Sys.apply_setStyles (s : Sys S) (t : Table S) (e : Effect) :
    (s.setStyles t).apply e = (s.apply e).setStyles t := by
  cases e with
  | call st o => rfl
  | put w => exact Sys.put_setStyles s t w

@[simp] theorem Sys.run_nil (s : Sys S) : s.run [] = s := rfl
@[simp] theorem Sys.run_cons (s : Sys S) (e : Effect) (es : List Effect) :
    s.run (e :: es) = (s.apply e).run es := rfl

theorem Sys.run_append (s : Sys S) (es fs : List Effect) :
    s.run (es ++ fs) = (s.run es).run fs := by
  simp [Sys.run, List.foldl_append]

theorem Sys.run_subprocess (s : Sys S) (es : List Effect) :
    (s.run es).qp.subprocess_ = s.qp.subprocess_ := by
  induction es generalizing s with
  | nil => rfl
  | cons e es ih => rw [Sys.run_cons, ih, Sys.apply_subprocess]

theorem Sys.run_styles (s : Sys S) (es : List Effect) : (s.run es).qp.styles_ = s.qp.styles_ := by
  induction es generalizing s with
  | nil => rfl
  | cons e es ih => rw [Sys.run_cons, ih, Sys.apply_styles]

theorem Sys.run_stylesHeader (s : Sys S) (es : List Effect) :
    (s.run es).qp.stylesHeader_ = s.qp.stylesHeader_ := by
  induction es generalizing s with
  | nil => rfl
  | cons e es ih => rw [Sys.run_cons, ih, Sys.apply_stylesHeader]

theorem Sys.run_setStyles (s : Sys S) (t : Table S) (es : List Effect) :
    (s.setStyles t).run es = (s.run es).setStyles t := by
  induction es generalizing s with
  | nil => rfl
  | cons e es ih => rw [Sys.run_cons, Sys.run_cons, Sys.apply_setStyles, ih]

theorem Sys.setStyles_setStyles (s : Sys S) (t u : Table S) :
    (s.setStyles t).setStyles u = s.setStyles u := rfl

theorem Sys.setStyles_self (s : Sys S) : s.setStyles s.qp.styles_ = s := rfl

theorem Sys.puts_eq_run (s : Sys S) (ws : List Write) : s.puts ws = s.run (ws.map .put) := by
  induction ws generalizing s with
  | nil => rfl
  | cons w ws ih =>
    simp only [Sys.puts, List.foldl_cons, List.map_cons, Sys.run_cons, Sys.apply]
    exact ih (s.put w)

theorem Sys.callCanvas_eq_run (c : Client) (P : Backend) (s : Sys S) (a : Arg) :
    s.callCanvas c P a = s.run (canvasEffects c P s.qp.subprocess_ a) := by
  simp [Sys.callCanvas, canvasEffects, Sys.puts_eq_run, Sys.apply]

theorem Sys.callObject_eq_run (c : Client) (P : Backend) (s : Sys S) (st obj : Value) :
    s.callObject c P st obj = s.run (objectEffects c P s.qp.subprocess_ st obj) := by
  simp [Sys.callObject, objectEffects, Sys.puts_eq_run, Sys.apply]

theorem processArgs_nil (c : Client) (P : Backend) {S : List VariantTy} (s : Sys S) :
    processArgs c P s [] = .ok s := rfl

theorem processArgs_cons (c : Client) (P : Backend) {S : List VariantTy} (s : Sys S) (a : Arg)
    (args : List Arg) :
    processArgs c P s (a :: args) =
      match is_canvas_style c P a, is_object_style c P a with
      | true, false => processArgs c P (s.callCanvas c P a) args
      | false, true => processArgs c P (s.setStyles (TupleUpdater.update s.qp.styles_ a)) args
      | true, true =>
        processArgs c P
          ((s.callCanvas c P a).setStyles (TupleUpdater.update (s.callCanvas c P a).qp.styles_ a))
          args
      | false, false =>
        match a with
        | .pythonHeader => .error .illFormed
        | .user obj =>
          match key c S (.user obj) with
          | none => .error .illFormed
          | some k => processArgs c P (s.callObject c P (s.qp.styles_ k) obj) args := rfl

/-- Argument processing is the effects of the arguments, carried out in order, followed by
the assignment of the final live table. -/
theorem processArgs_eq (c : Client) (P : Backend) (s : Sys S) (args : List Arg)
    (h : ∀ a ∈ args, instantiates c P S a = true) :
    processArgs c P s args =
      .ok ((s.run (argsEffects c P s.qp.subprocess_ s.qp.styles_ args)).setStyles
        (argsTable c P s.qp.styles_ args)) := by
  induction args generalizing s with
  | nil => rfl
  | cons a args ih =>
    have ha := h a (List.mem_cons_self _ _)
    have hr : ∀ b ∈ args, instantiates c P S b = true :=
      fun b hb => h b (List.mem_cons_of_mem _ hb)
    rw [processArgs_cons]
    cases hc : is_canvas_style c P a <;> cases ho : is_object_style c P a
    · -- plottable object
      cases a with
      | pythonHeader => simp [instantiates, hc, ho] at ha
      | user obj =>
        simp only [instantiates, hc, ho, Bool.or_self, Bool.false_or] at ha
        obtain ⟨k, hk⟩ := Option.isSome_iff_exists.mp ha
        simp only [hk]
        rw [ih _ hr, Sys.callObject_eq_run]
        simp only [argsEffects, argEffects, hc, ho, hk, argsTable, List.foldl_cons, argTable,
          Sys.run_append, Sys.run_subprocess, Sys.run_styles]
        simp
    · -- object-style only
      simp only []
      rw [ih _ hr]
      simp only [argsEffects, argEffects, hc, ho, argsTable, List.foldl_cons, argTable,
        Sys.run_append, Sys.run_nil, Sys.setStyles_qp, Sys.run_setStyles, Sys.setStyles_setStyles]
      simp
    · -- canvas-style only
      simp only []
      rw [ih _ hr, Sys.callCanvas_eq_run]
      simp only [argsEffects, argEffects, hc, ho, argsTable, List.foldl_cons, argTable,
        Sys.run_append, Sys.run_subprocess, Sys.run_styles]
      simp
    · -- both
      simp only []
      rw [ih _ hr, Sys.callCanvas_eq_run]
      simp only [argsEffects, argEffects, hc, ho, argsTable, List.foldl_cons, argTable,
        Sys.run_append, Sys.setStyles_qp, Sys.run_setStyles, Sys.setStyles_setStyles,
        Sys.run_subprocess, Sys.run_styles]
      simp

end frame

/-! ## What a run of effects does to the trace and to the header buffer -/

section traces
variable {S : List VariantTy}

theorem effectEvents_append (b : Rdbuf) (id : Nat) (es fs : List Effect) :
    effectEvents b id (es ++ fs) = effectEvents b id es ++ effectEvents b id fs := by
  induction es with
  | nil => rfl
  | cons e es ih =>
    cases e with
    | call st o => simp [effectEvents, ih]
    | put w =>
      cases w with
      | out t => cases b <;> simp [effectEvents, ih]
      | data_out d => simp [effectEvents, ih]

theorem outText_append (es fs : List Effect) : outText (es ++ fs) = outText es ++ outText fs := by
  induction es with
  | nil => simp [outText]
  | cons e es ih =>
    cases e with
    | call st o => simp [outText, ih]
    | put w =>
      cases w with
      | out t => simp [outText, ih, String.append_assoc]
      | data_out d => simp [outText, ih]

theorem stdinText_append (id : Nat) (tr ts : List Event) :
    stdinText id (tr ++ ts) = stdinText id tr ++ stdinText id ts := by
  induction tr with
  | nil => simp [stdinText]
  | cons e tr ih =>
    cases e <;> simp [stdinText, ih]
    split <;> simp [String.append_assoc]

theorem Sys.apply_spawned (s : Sys S) (e : Effect) : (s.apply e).env.spawned = s.env.spawned := by
  cases e with
  | call st o => rfl
  | put w =>
    cases w with
    | out t => simp only [Sys.apply, Sys.put]; split <;> rfl
    | data_out d => rfl

theorem Sys.run_spawned (s : Sys S) (es : List Effect) : (s.run es).env.spawned = s.env.spawned := by
  induction es generalizing s with
  | nil => rfl
  | cons e es ih => rw [Sys.run_cons, ih, Sys.apply_spawned]

theorem Sys.apply_trace (s : Sys S) (e : Effect) :
    (s.apply e).env.trace =
      s.env.trace ++ effectEvents s.qp.subprocess_.rdbuf s.qp.subprocess_.id [e] := by
  cases e with
  | call st o => simp [Sys.apply, effectEvents]
  | put w =>
    cases w with
    | out t =>
      simp only [Sys.apply, Sys.put, effectEvents]
      cases s.qp.subprocess_.rdbuf <;> simp
    | data_out d => simp [Sys.apply, Sys.put, effectEvents]

theorem Sys.run_trace (s : Sys S) (es : List Effect) :
    (s.run es).env.trace =
      s.env.trace ++ effectEvents s.qp.subprocess_.rdbuf s.qp.subprocess_.id es := by
  induction es generalizing s with
  | nil => simp [effectEvents]
  | cons e es ih =>
    rw [Sys.run_cons, ih, Sys.apply_trace, Sys.apply_subprocess, List.append_assoc,
      ← effectEvents_append]
    rfl

theorem Sys.apply_header (s : Sys S) (e : Effect) :
    (s.apply e).qp.header_ =
      match s.qp.subprocess_.rdbuf with
      | .own => s.qp.header_
      | .header => s.qp.header_ ++ outText [e] := by
  cases e with
  | call st o => cases s.qp.subprocess_.rdbuf <;> simp [Sys.apply, outText]
  | put w =>
    cases w with
    | out t =>
      simp only [Sys.apply, Sys.put, outText]
      cases s.qp.subprocess_.rdbuf <;> simp
    | data_out d => cases s.qp.subprocess_.rdbuf <;> simp [Sys.apply, Sys.put, outText]

theorem Sys.run_header (s : Sys S) (es : List Effect) :
    (s.run es).qp.header_ =
      match s.qp.subprocess_.rdbuf with
      | .own => s.qp.header_
      | .header => s.qp.header_ ++ outText es := by
  induction es generalizing s with
  | nil => cases s.qp.subprocess_.rdbuf <;> simp [outText]
  | cons e es ih =>
    rw [Sys.run_cons, ih, Sys.apply_subprocess, Sys.apply_header]
    cases s.qp.subprocess_.rdbuf
    · rfl
    · simp only [String.append_assoc, ← outText_append]
      rfl

theorem stdinText_effectEvents_own (id : Nat) (es : List Effect) :
    stdinText id (effectEvents .own id es) = outText es := by
  induction es with
  | nil => rfl
  | cons e es ih =>
    cases e with
    | call st o => simp [effectEvents, stdinText, outText, ih]
    | put w =>
      cases w with
      | out t => simp [effectEvents, stdinText, outText, ih]
      | data_out d => simp [effectEvents, stdinText, outText, ih]

theorem stdinText_effectEvents_header (j id : Nat) (es : List Effect) :
    stdinText j (effectEvents .header id es) = "" := by
  induction es with
  | nil => rfl
  | cons e es ih =>
    cases e with
    | call st o => simp [effectEvents, stdinText, ih]
    | put w =>
      cases w with
      | out t => simp [effectEvents, ih]
      | data_out d => simp [effectEvents, stdinText, ih]

end traces

/-! ## The channel life cycle and `plot` as a whole -/

section whole
variable {S : List VariantTy}

theorem Subprocess.destroy_trace (os : OS) (p : Subprocess) (w : World) :
    (p.destroy os w).trace = w.trace ++ destroyEvents os p := by
  simp only [Subprocess.destroy, destroyEvents]
  cases os.closeWriteOk p.id <;> simp

theorem Subprocess.destroy_spawned (os : OS) (p : Subprocess) (w : World) :
    (p.destroy os w).spawned = w.spawned := by
  simp only [Subprocess.destroy]
  cases os.closeWriteOk p.id <;> simp

theorem Subprocess.new_ok (os : OS) (P : Backend) (w : World)
    (h : os.popenOk w.spawned = true) :
    Subprocess.new os P w =
      .ok ({ id := w.spawned, filedes_ := os.filedes w.spawned, rdbuf := .own },
           { trace := w.trace ++ newEvents os P w.spawned, spawned := w.spawned + 1 }) := by
  simp only [Subprocess.new, newEvents, h, if_true]
  cases os.pipeOk w.spawned <;> cases os.closeReadOk w.spawned <;> simp [World.log]

theorem Sys.replayHeader_reloadStyles (s : Sys S) :
    s.replayHeader.reloadStyles =
      (s.run [.put (.out s.qp.header_)]).setStyles s.qp.stylesHeader_ := by
  simp only [Sys.reloadStyles, Sys.replayHeader, Sys.run_cons, Sys.run_nil, Sys.apply,
    Sys.put_stylesHeader]

/-- The whole of a `plot` call that compiles and whose `popen` succeeds. -/
theorem plot_eq (c : Client) (os : OS) (P : Backend) (s : Sys S) (args : List Arg)
    (hargs : ∀ a ∈ args, instantiates c P S a = true)
    (hos : os.popenOk s.env.spawned = true) :
    ∃ s1, plot c os P s args = .ok s1 ∧
      s1.qp.subprocess_ =
        { id := s.env.spawned, filedes_ := os.filedes s.env.spawned, rdbuf := .own } ∧
      s1.qp.header_ =
        (s.run (.put (.out s.qp.header_) ::
          argsEffects c P s.qp.subprocess_ s.qp.stylesHeader_ args)).qp.header_ ∧
      s1.qp.styles_ = argsTable c P s.qp.stylesHeader_ args ∧
      s1.qp.stylesHeader_ = s.qp.stylesHeader_ ∧
      s1.env.spawned = s.env.spawned + 1 ∧
      s1.env.trace =
        s.env.trace ++
          effectEvents s.qp.subprocess_.rdbuf s.qp.subprocess_.id
            (.put (.out s.qp.header_) ::
              argsEffects c P s.qp.subprocess_ s.qp.stylesHeader_ args) ++
          destroyEvents os s.qp.subprocess_ ++ newEvents os P s.env.spawned := by
  have hsp : (Subprocess.destroy os s.qp.subprocess_
      ((s.run [.put (.out s.qp.header_)]).run
        (argsEffects c P s.qp.subprocess_ s.qp.stylesHeader_ args)).env).spawned
      = s.env.spawned := by
    rw [Subprocess.destroy_spawned, Sys.run_spawned, Sys.run_spawned]
  simp only [plot, Sys.replayHeader_reloadStyles, processArgs_eq c P _ args hargs,
    Sys.setStyles_qp, Sys.run_setStyles, Sys.setStyles_setStyles, Sys.run_subprocess,
    Sys.respawn, Sys.setStyles_env]
  rw [Subprocess.new_ok os P _ (by rw [hsp]; exact hos)]
  refine ⟨_, rfl, ?_, ?_, ?_, ?_, ?_, ?_⟩
  · simp only [hsp]
  · simp only [← Sys.run_append]; rfl
  · rfl
  · simp only [Sys.run_stylesHeader]
  · simp only [hsp]
  · simp only [hsp, Subprocess.destroy_trace]
    simp only [← Sys.run_append, Sys.run_trace]
    rfl

end whole

/-! ## `addToHeader` and the constructor as a whole -/

section construction
variable {S : List VariantTy}

theorem canvasEffects_rdbuf (c : Client) (P : Backend) (p : Subprocess) (b : Rdbuf) (a : Arg) :
    canvasEffects c P { p with rdbuf := b } a = canvasEffects c P p a := by
  cases a <;> rfl

theorem argsEffects_rdbuf (c : Client) (P : Backend) (p : Subprocess) (b : Rdbuf)
    (tbl : Table S) (args : List Arg) :
    argsEffects c P { p with rdbuf := b } tbl args = argsEffects c P p tbl args := by
  induction args generalizing tbl with
  | nil => rfl
  | cons a args ih =>
    simp only [argsEffects, ih, argEffects, canvasEffects_rdbuf]
    rfl

/-- The whole of an `addToHeader` call that compiles. -/
theorem addToHeader_eq (c : Client) (P : Backend) (s : Sys S) (args : List Arg)
    (hargs : ∀ a ∈ args, instantiates c P S a = true) :
    ∃ s1, addToHeader c P s args = .ok s1 ∧
      s1.qp.subprocess_ = s.qp.subprocess_ ∧
      s1.qp.header_ =
        s.qp.header_ ++ outText (argsEffects c P s.qp.subprocess_ s.qp.styles_ args) ∧
      s1.qp.styles_ = argsTable c P s.qp.styles_ args ∧
      s1.qp.stylesHeader_ = s.qp.styles_ ∧
      s1.env.spawned = s.env.spawned ∧
      s1.env.trace =
        s.env.trace ++
          effectEvents .header s.qp.subprocess_.id
            (argsEffects c P s.qp.subprocess_ s.qp.styles_ args) := by
  simp only [addToHeader, processArgs_eq c P _ args hargs]
  refine ⟨_, rfl, ?_, ?_, ?_, ?_, ?_, ?_⟩
  · simp [Sys.run_subprocess]
  · simp [Sys.run_header, argsEffects_rdbuf]
  · simp
  · simp [Sys.run_stylesHeader]
  · simp [Sys.run_spawned]
  · simp [Sys.run_trace, argsEffects_rdbuf]

theorem argsEffects_pythonHeader (c : Client) (p : Subprocess) (tbl : Table S) :
    argsEffects c .Python p tbl [.pythonHeader] = bootstrap .Python p := by
  simp [argsEffects, argEffects, is_canvas_style, canvasEffects, canvasWrites, bootstrap]

theorem argsTable_pythonHeader (c : Client) (P : Backend) (tbl : Table S) :
    argsTable c P tbl [.pythonHeader] = tbl := by
  simp [argsTable, argTable, is_object_style]

/-- The whole of a construction that compiles and whose `popen` succeeds. -/
theorem Qplot.new_eq (c : Client) (os : OS) (P : Backend) (S : List VariantTy) (w : World)
    (args : List Arg) (hargs : ∀ a ∈ args, instantiates c P S a = true)
    (hos : os.popenOk w.spawned = true) :
    ∃ s, Qplot.new c os P S w args = .ok s ∧
      s.qp.subprocess_ =
        { id := w.spawned, filedes_ := os.filedes w.spawned, rdbuf := .own } ∧
      s.qp.header_ =
        outText (bootstrap P ⟨w.spawned, os.filedes w.spawned, .own⟩) ++
          outText (argsEffects c P ⟨w.spawned, os.filedes w.spawned, .own⟩ (Table.init c S) args) ∧
      s.qp.styles_ = argsTable c P (Table.init c S) args ∧
      s.qp.stylesHeader_ = Table.init c S ∧
      s.env.spawned = w.spawned + 1 ∧
      s.env.trace =
        w.trace ++ newEvents os P w.spawned ++
          effectEvents .header w.spawned
            (bootstrap P ⟨w.spawned, os.filedes w.spawned, .own⟩ ++
              argsEffects c P ⟨w.spawned, os.filedes w.spawned, .own⟩ (Table.init c S) args) := by
  simp only [Qplot.new, Subprocess.new_ok os P w hos]
  by_cases hP : P = .Python
  · subst hP
    simp only [addPrivateHeader]
    obtain ⟨s1, h1, hp1, hh1, hs1, -, hn1, ht1⟩ :=
      addToHeader_eq c .Python
        ({ qp := { subprocess_ := ⟨w.spawned, os.filedes w.spawned, .own⟩, header_ := "",
                   styles_ := Table.init c S, stylesHeader_ := Table.init c S },
           env := { trace := w.trace ++ newEvents os .Python w.spawned,
                    spawned := w.spawned + 1 } } : Sys S)
        [.pythonHeader] (by simp [instantiates, is_canvas_style])
    obtain ⟨s2, h2, hp2, hh2, hs2, hb2, hn2, ht2⟩ := addToHeader_eq c .Python s1 args hargs
    rw [h1]
    simp only [h2]
    simp only [argsEffects_pythonHeader, argsTable_pythonHeader] at hp1 hh1 hs1 hn1 ht1
    refine ⟨s2, rfl, ?_, ?_, ?_, ?_, ?_, ?_⟩
    · rw [hp2, hp1]
    · rw [hh2, hh1, hp1, hs1]; simp
    · rw [hs2, hs1]
    · rw [hb2, hs1]
    · rw [hn2, hn1]
    · rw [ht2, ht1, hp1, hs1, effectEvents_append]; simp
  · have hb : ∀ p, bootstrap P p = [] := by
      intro p; cases P <;> first | rfl | exact absurd rfl hP
    have hpriv : ∀ s : Sys S, addPrivateHeader c P s = .ok s := by
      intro s; cases P <;> first | rfl | exact absurd rfl hP
    simp only [hpriv]
    obtain ⟨s2, h2, hp2, hh2, hs2, hb2, hn2, ht2⟩ :=
      addToHeader_eq c P
        ({ qp := { subprocess_ := ⟨w.spawned, os.filedes w.spawned, .own⟩, header_ := "",
                   styles_ := Table.init c S, stylesHeader_ := Table.init c S },
           env := { trace := w.trace ++ newEvents os P w.spawned,
                    spawned := w.spawned + 1 } } : Sys S) args hargs
    refine ⟨s2, h2, ?_, ?_, ?_, ?_, ?_, ?_⟩
    · rw [hp2]
    · rw [hh2, hb]; simp [outText]
    · rw [hs2]
    · rw [hb2]
    · rw [hn2]
    · rw [ht2, hb]; simp
end construction

/-! ## A call that returns did compile, and its `popen` succeeded -/

section returns
variable {S : List VariantTy}

theorem processArgs_ok_instantiates (c : Client) (P : Backend) (s s1 : Sys S) (args : List Arg)
    (h : processArgs c P s args = .ok s1) : ∀ a ∈ args, instantiates c P S a = true := by
  induction args generalizing s with
  | nil => intro a ha; cases ha
  | cons a args ih =>
    rw [processArgs_cons] at h
    intro b hb
    rcases List.mem_cons.mp hb with rfl | hb1
    · cases hc : is_canvas_style c P b <;> cases ho : is_object_style c P b <;>
        simp only [instantiates, hc, ho, Bool.or_self, Bool.false_or, Bool.true_or, Bool.or_true]
      simp only [hc, ho] at h
      cases b with
      | pythonHeader => simp at h
      | user obj =>
        simp only []
        cases hk : key c S (.user obj) with
        | none => simp [hk] at h
        | some k => rfl
    · cases hc : is_canvas_style c P a <;> cases ho : is_object_style c P a <;>
        simp only [hc, ho] at h
      · cases a with
        | pythonHeader => simp at h
        | user obj =>
          simp only [] at h
          cases hk : key c S (.user obj) with
          | none => simp [hk] at h
          | some k =>
            simp only [hk] at h
            exact ih _ h b hb1
      · exact ih _ h b hb1
      · exact ih _ h b hb1
      · exact ih _ h b hb1

theorem Subprocess.new_ok_popen (os : OS) (P : Backend) (w : World) (x : Subprocess × World)
    (h : Subprocess.new os P w = .ok x) : os.popenOk w.spawned = true := by
  simp only [Subprocess.new] at h
  split at h
  · assumption
  · cases h

theorem plot_ok_inv (c : Client) (os : OS) (P : Backend) (s s1 : Sys S) (args : List Arg)
    (h : plot c os P s args = .ok s1) :
    (∀ a ∈ args, instantiates c P S a = true) ∧ os.popenOk s.env.spawned = true := by
  simp only [plot] at h
  split at h
  · cases h
  · rename_i s3 h3
    have hi := processArgs_ok_instantiates c P _ _ args h3
    refine ⟨hi, ?_⟩
    rw [processArgs_eq c P _ args hi] at h3
    simp only [Sys.respawn] at h
    split at h
    · cases h
    · rename_i p w1 hn
      have := Subprocess.new_ok_popen os P _ _ hn
      rw [Subprocess.destroy_spawned] at this
      cases h3
      simpa [Sys.replayHeader_reloadStyles, Sys.run_spawned, Sys.run_setStyles,
        Sys.apply_spawned] using this

theorem addToHeader_ok_inv (c : Client) (P : Backend) (s s1 : Sys S) (args : List Arg)
    (h : addToHeader c P s args = .ok s1) : ∀ a ∈ args, instantiates c P S a = true := by
  simp only [addToHeader] at h
  split at h
  · cases h
  · rename_i s3 h3
    exact processArgs_ok_instantiates c P _ _ args h3

theorem Qplot.new_ok_inv (c : Client) (os : OS) (P : Backend) (w : World) (s : Sys S)
    (args : List Arg) (h : Qplot.new c os P S w args = .ok s) :
    (∀ a ∈ args, instantiates c P S a = true) ∧ os.popenOk w.spawned = true := by
  simp only [Qplot.new] at h
  split at h
  · cases h
  · rename_i p w1 hn
    refine ⟨?_, Subprocess.new_ok_popen os P _ _ hn⟩
    split at h
    · cases h
    · exact addToHeader_ok_inv c P _ _ args h

end returns

/-! ## Invariants of reachable states -/

section invariants
variable {S : List VariantTy}

theorem effectEvents_kind (b : Rdbuf) (id : Nat) (es : List Effect) :
    ∀ e ∈ effectEvents b id es, e.isCall = true ∨ e.isWriteTo id = true := by
  induction es with
  | nil => intro e he; cases he
  | cons x es ih =>
    intro e he
    cases x with
    | call st o =>
      simp only [effectEvents, List.mem_cons] at he
      rcases he with rfl | he
      · left; rfl
      · exact ih e he
    | put w =>
      cases w with
      | out t =>
        cases b
        · simp only [effectEvents, List.mem_cons] at he
          rcases he with rfl | he
          · right; simp [Event.isWriteTo]
          · exact ih e he
        · simp only [effectEvents] at he
          exact ih e he
      | data_out d =>
        simp only [effectEvents, List.mem_cons] at he
        rcases he with rfl | he
        · right; simp [Event.isWriteTo]
        · exact ih e he

theorem Event.chan_of_kind (id : Nat) (e : Event)
    (h : e.isCall = true ∨ e.isWriteTo id = true) : e.chan = none ∨ e.chan = some id := by
  cases e <;> simp_all [Event.isCall, Event.isWriteTo, Event.chan]

theorem liveStep_of_kind (id : Nat) (e : Event)
    (h : e.isCall = true ∨ e.isWriteTo id = true) (l : List Nat) : liveStep l e = l := by
  cases e <;> simp_all [Event.isCall, Event.isWriteTo, liveStep]

theorem foldl_liveStep_neutral (tr : List Event) (l : List Nat)
    (h : ∀ e ∈ tr, ∀ l, liveStep l e = l) : tr.foldl liveStep l = l := by
  induction tr generalizing l with
  | nil => rfl
  | cons e tr ih =>
    rw [List.foldl_cons, h e (List.mem_cons_self _ _)]
    exact ih l fun e he => h e (List.mem_cons_of_mem _ he)

theorem neverTwoFrom_neutral (tr : List Event) (l : List Nat) (hl : l.length ≤ 1)
    (h : ∀ e ∈ tr, ∀ l, liveStep l e = l) : neverTwoFrom l tr := by
  induction tr with
  | nil => exact hl
  | cons e tr ih =>
    refine ⟨hl, ?_⟩
    rw [h e (List.mem_cons_self _ _)]
    exact ih fun e he => h e (List.mem_cons_of_mem _ he)

theorem neverTwoFrom_append (tr ts : List Event) (l : List Nat) :
    neverTwoFrom l (tr ++ ts) ↔ neverTwoFrom l tr ∧ neverTwoFrom (tr.foldl liveStep l) ts := by
  induction tr generalizing l with
  | nil =>
    simp only [List.nil_append, neverTwoFrom, List.foldl_nil]
    constructor
    · intro h
      refine ⟨?_, h⟩
      cases ts with
      | nil => exact h
      | cons e es => exact h.1
    · exact fun h => h.2
  | cons e tr ih =>
    show l.length ≤ 1 ∧ neverTwoFrom (liveStep l e) (tr ++ ts) ↔ _
    rw [ih]
    simp only [neverTwoFrom, List.foldl_cons, and_assoc]

theorem neverTwoFrom_length (tr : List Event) (l : List Nat) (h : neverTwoFrom l tr) :
    l.length ≤ 1 := by
  cases tr with
  | nil => exact h
  | cons e es => exact h.1

/-- The recursive reading of "never two channels" is the reading by moments: after every
initial segment of the trace at most one channel exists. -/
theorem neverTwoFrom_iff_take (tr : List Event) (l : List Nat) :
    neverTwoFrom l tr ↔ ∀ n, ((tr.take n).foldl liveStep l).length ≤ 1 := by
  induction tr generalizing l with
  | nil => simp [neverTwoFrom]
  | cons e tr ih =>
    simp only [neverTwoFrom, ih]
    constructor
    · rintro ⟨hl, h⟩ n
      cases n with
      | zero => simpa using hl
      | succ n => simpa using h n
    · intro h
      refine ⟨by simpa using h 0, fun n => ?_⟩
      simpa using h (n + 1)

theorem stdinText_of_chan (id : Nat) (tr : List Event)
    (h : ∀ e ∈ tr, e.chan ≠ some id) : stdinText id tr = "" := by
  induction tr with
  | nil => rfl
  | cons e tr ih =>
    have he := h e (List.mem_cons_self _ _)
    have ih := ih fun e he => h e (List.mem_cons_of_mem _ he)
    cases e <;> simp_all [stdinText, Event.chan]

theorem destroyEvents_eq (os : OS) (p : Subprocess) :
    destroyEvents os p =
      if os.closeWriteOk p.id = true then [.closeWrite p.id true, .pclose p.id]
      else [.closeWrite p.id false, .cerr "close(filedes_[1]) returned with error\n",
            .pclose p.id] := by
  simp only [destroyEvents, Subprocess.destroy]
  cases os.closeWriteOk p.id <;> simp

theorem newEvents_eq (os : OS) (P : Backend) (n : Nat) (h : os.popenOk n = true) :
    newEvents os P n =
      [.pipe n (os.pipeOk n)] ++
        (if os.pipeOk n = true then [] else [.cerr "pipe() returned with error\n"]) ++
        [.popen n P.cmd true, .closeRead n (os.closeReadOk n)] ++
        (if os.closeReadOk n = true then [] else [.cerr "error closing filedes[0]\n"]) := by
  simp only [newEvents, Subprocess.new, h]
  cases os.pipeOk n <;> cases os.closeReadOk n <;> simp [World.log]

theorem destroyEvents_chan (os : OS) (p : Subprocess) :
    ∀ e ∈ destroyEvents os p, e.chan = none ∨ e.chan = some p.id := by
  rw [destroyEvents_eq]
  cases os.closeWriteOk p.id <;> simp [Event.chan]

theorem newEvents_chan (os : OS) (P : Backend) (n : Nat) (h : os.popenOk n = true) :
    ∀ e ∈ newEvents os P n, e.chan = none ∨ e.chan = some n := by
  rw [newEvents_eq os P n h]
  cases os.pipeOk n <;> cases os.closeReadOk n <;> simp [Event.chan]

theorem newEvents_stdinText (os : OS) (P : Backend) (n i : Nat) (h : os.popenOk n = true) :
    stdinText i (newEvents os P n) = "" := by
  rw [newEvents_eq os P n h]
  cases os.pipeOk n <;> cases os.closeReadOk n <;> simp [stdinText]

theorem destroyEvents_live (os : OS) (p : Subprocess) :
    (destroyEvents os p).foldl liveStep [p.id] = [] ∧ neverTwoFrom [p.id] (destroyEvents os p) := by
  rw [destroyEvents_eq]
  cases os.closeWriteOk p.id <;> simp [liveStep, neverTwoFrom]

theorem newEvents_live (os : OS) (P : Backend) (n : Nat) (h : os.popenOk n = true) :
    (newEvents os P n).foldl liveStep [] = [n] ∧ neverTwoFrom [] (newEvents os P n) := by
  rw [newEvents_eq os P n h]
  cases os.pipeOk n <;> cases os.closeReadOk n <;> simp [liveStep, neverTwoFrom]

end invariants

section reach
variable {S : List VariantTy}

theorem effectEvents_neutral (b : Rdbuf) (id : Nat) (es : List Effect) :
    ∀ e ∈ effectEvents b id es, ∀ l, liveStep l e = l :=
  fun e he l => liveStep_of_kind id e (effectEvents_kind b id es e he) l

theorem effectEvents_chan (b : Rdbuf) (id : Nat) (es : List Effect) :
    ∀ e ∈ effectEvents b id es, e.chan = none ∨ e.chan = some id :=
  fun e he => Event.chan_of_kind id e (effectEvents_kind b id es e he)

theorem Inv.of_new (c : Client) (os : OS) (P : Backend) (s : Sys S) (args : List Arg)
    (h : Qplot.new c os P S World.init args = .ok s) : Inv s := by
  obtain ⟨hargs, hos⟩ := Qplot.new_ok_inv c os P World.init s args h
  obtain ⟨s1, h1, hp, -, -, -, hn, ht⟩ := Qplot.new_eq c os P S World.init args hargs hos
  rw [h] at h1
  cases h1
  have hos0 : os.popenOk 0 = true := hos
  constructor
  · rw [hp]
  · rw [hp, hn]; exact Nat.lt_succ_self _
  · intro e he i hi
    rw [hn]
    rw [ht] at he
    simp only [World.init, List.nil_append, List.mem_append] at he
    rcases he with he | he
    · rcases newEvents_chan os P 0 hos0 e he with h0 | h0 <;> rw [h0] at hi <;> cases hi
      exact Nat.lt_succ_self _
    · rcases effectEvents_chan _ _ _ e he with h0 | h0 <;> rw [h0] at hi <;> cases hi
      exact Nat.lt_succ_self _
  · rw [hp, ht]
    simp only [World.init, List.nil_append, stdinText_append,
      newEvents_stdinText os P 0 0 hos0, stdinText_effectEvents_header]
    rfl
  · rw [hp, ht]
    simp only [live, World.init, List.nil_append, List.foldl_append,
      (newEvents_live os P 0 hos0).1]
    exact foldl_liveStep_neutral _ _ (effectEvents_neutral _ _ _)
  · rw [ht]
    simp only [World.init, List.nil_append]
    rw [neverTwoFrom_append, (newEvents_live os P 0 hos0).1]
    exact ⟨(newEvents_live os P 0 hos0).2,
      neverTwoFrom_neutral _ _ (by simp) (effectEvents_neutral _ _ _)⟩

theorem Inv.of_addToHeader (c : Client) (P : Backend) (s s1 : Sys S) (args : List Arg)
    (hs : Inv s) (h : addToHeader c P s args = .ok s1) : Inv s1 := by
  have hargs := addToHeader_ok_inv c P s s1 args h
  obtain ⟨s2, h2, hp, -, -, -, hn, ht⟩ := addToHeader_eq c P s args hargs
  rw [h] at h2
  cases h2
  constructor
  · rw [hp]; exact hs.own
  · rw [hp, hn]; exact hs.id_lt
  · intro e he i hi
    rw [hn]
    rw [ht, List.mem_append] at he
    rcases he with he | he
    · exact hs.chan_lt e he i hi
    · rcases effectEvents_chan _ _ _ e he with h0 | h0 <;> rw [h0] at hi <;> cases hi
      exact hs.id_lt
  · rw [hp, ht, stdinText_append, hs.no_text, stdinText_effectEvents_header]
    rfl
  · rw [hp, ht]
    simp only [live, List.foldl_append]
    rw [foldl_liveStep_neutral _ _ (effectEvents_neutral _ _ _)]
    exact hs.one_live
  · rw [ht, neverTwoFrom_append]
    refine ⟨hs.never_two, neverTwoFrom_neutral _ _ ?_ (effectEvents_neutral _ _ _)⟩
    have : List.foldl liveStep [] s.env.trace = [s.qp.subprocess_.id] := hs.one_live
    rw [this]; simp

theorem Inv.of_plot (c : Client) (os : OS) (P : Backend) (s s1 : Sys S) (args : List Arg)
    (hs : Inv s) (h : plot c os P s args = .ok s1) : Inv s1 := by
  obtain ⟨hargs, hos⟩ := plot_ok_inv c os P s s1 args h
  obtain ⟨s2, h2, hp, -, -, -, hn, ht⟩ := plot_eq c os P s args hargs hos
  rw [h] at h2
  cases h2
  have hlive : List.foldl liveStep [] s.env.trace = [s.qp.subprocess_.id] := hs.one_live
  constructor
  · rw [hp]
  · rw [hp, hn]; exact Nat.lt_succ_self _
  · intro e he i hi
    rw [hn]
    rw [ht] at he
    simp only [List.mem_append] at he
    rcases he with ((he | he) | he) | he
    · exact Nat.lt_succ_of_lt (hs.chan_lt e he i hi)
    · rcases effectEvents_chan _ _ _ e he with h0 | h0 <;> rw [h0] at hi <;> cases hi
      exact Nat.lt_succ_of_lt hs.id_lt
    · rcases destroyEvents_chan os _ e he with h0 | h0 <;> rw [h0] at hi <;> cases hi
      exact Nat.lt_succ_of_lt hs.id_lt
    · rcases newEvents_chan os P _ hos e he with h0 | h0 <;> rw [h0] at hi <;> cases hi
      exact Nat.lt_succ_self _
  · rw [hp, ht]
    simp only [stdinText_append, newEvents_stdinText os P _ _ hos]
    have hne : s.qp.subprocess_.id ≠ s.env.spawned := Nat.ne_of_lt hs.id_lt
    rw [stdinText_of_chan _ s.env.trace, stdinText_of_chan _ (effectEvents _ _ _),
      stdinText_of_chan _ (destroyEvents _ _)]
    · rfl
    · intro e he hc
      rcases destroyEvents_chan os _ e he with h0 | h0
      · rw [h0] at hc; cases hc
      · rw [h0] at hc; exact hne (Option.some.inj hc)
    · intro e he hc
      rcases effectEvents_chan _ _ _ e he with h0 | h0
      · rw [h0] at hc; cases hc
      · rw [h0] at hc; exact hne (Option.some.inj hc)
    · intro e he hc
      exact Nat.lt_irrefl _ (hs.chan_lt e he _ hc)
  · rw [hp, ht]
    simp only [live, List.foldl_append, hlive]
    rw [foldl_liveStep_neutral _ _ (effectEvents_neutral _ _ _), (destroyEvents_live os _).1]
    exact (newEvents_live os P _ hos).1
  · rw [ht]
    simp only [neverTwoFrom_append, List.foldl_append, hlive]
    rw [foldl_liveStep_neutral _ _ (effectEvents_neutral _ _ _), (destroyEvents_live os _).1]
    exact ⟨⟨⟨hs.never_two, neverTwoFrom_neutral _ _ (by simp) (effectEvents_neutral _ _ _)⟩,
      (destroyEvents_live os _).2⟩, (newEvents_live os P _ hos).2⟩

/-- Every reachable adapter state satisfies the invariants. -/
theorem Reachable.inv (c : Client) (os : OS) (P : Backend) (s : Sys S)
    (h : Reachable c os P s) : Inv s := by
  induction h with
  | construct h => exact Inv.of_new c os P _ _ h
  | plot _ h ih => exact Inv.of_plot c os P _ _ _ ih h
  | addToHeader _ h ih => exact Inv.of_addToHeader c P _ _ _ ih h

end reach

/-! ## Sequencing of arguments -/

section sequencing
variable {S : List VariantTy}

theorem destroyEvents_stdinText (os : OS) (p : Subprocess) (i : Nat) :
    stdinText i (destroyEvents os p) = "" := by
  rw [destroyEvents_eq]
  cases os.closeWriteOk p.id <;> simp [stdinText]

theorem newEvents_not_write (os : OS) (P : Backend) (n i : Nat) (h : os.popenOk n = true) :
    ∀ e ∈ newEvents os P n, e.isWriteTo i = false := by
  rw [newEvents_eq os P n h]
  cases os.pipeOk n <;> cases os.closeReadOk n <;> simp [Event.isWriteTo]

theorem Event.chan_of_isWriteTo (id : Nat) (e : Event) (h : e.isWriteTo id = true) :
    e.chan = some id := by
  cases e <;> simp_all [Event.isWriteTo, Event.chan]

theorem plots_stylesHeader (c : Client) (os : OS) (P : Backend) (s s1 : Sys S)
    (calls : List (List Arg)) (h : plots c os P s calls = .ok s1) :
    s1.qp.stylesHeader_ = s.qp.stylesHeader_ := by
  induction calls generalizing s with
  | nil => cases h; rfl
  | cons args rest ih =>
    simp only [plots] at h
    split at h
    · cases h
    · rename_i s2 h2
      obtain ⟨hargs, hos⟩ := plot_ok_inv c os P s s2 args h2
      obtain ⟨s3, h3, -, -, -, hb, -, -⟩ := plot_eq c os P s args hargs hos
      rw [h2] at h3
      cases h3
      rw [ih s2 h, hb]

theorem argsEffects_of_no_object_style (c : Client) (P : Backend) (p : Subprocess) (tbl : Table S)
    (args : List Arg) (h : ∀ a ∈ args, is_object_style c P a = false) :
    argsEffects c P p tbl args = (args.map (argEffects c P p tbl)).flatten := by
  induction args with
  | nil => rfl
  | cons a args ih =>
    have ha := h a (List.mem_cons_self _ _)
    simp only [argsEffects, argTable, ha, List.map_cons, List.flatten_cons]
    rw [← ih fun b hb => h b (List.mem_cons_of_mem _ hb)]
    rfl

/-- The table type of the concrete client is the one derived from its plottable types. -/
theorem demoS_from_types : styles_from_types demoClient [10, 11, 12] = some demoS := by
  decide

/-- The concrete adapter state is the result of a construction at program start. -/
theorem demoState_reachable : Reachable demoClient demoOS .Python demoState :=
  Reachable.construct
    (rfl : Qplot.new demoClient demoOS .Python demoS World.init
      [.user ⟨1, "T"⟩, .user ⟨3, "L"⟩] = .ok demoState)

end sequencing

/-! ## The claims -/

section claims
variable {S : List VariantTy}

/-- C1, header persistence: in every reachable adapter state, a call `plot(args...)` that
compiles and whose `popen` succeeds returns, and the text it hands to the standard input of
the channel that was active on entry is the full header buffer followed by the text that
processing `args` from the header snapshot emits; the header buffer is left as it was. -/
theorem plot_header_persistence (c : Client) (os : OS) (P : Backend) (s : Sys S)
    (args : List Arg) (hr : Reachable c os P s)
    (hargs : ∀ a ∈ args, instantiates c P S a = true)
    (hos : os.popenOk s.env.spawned = true) :
    ∃ s1, plot c os P s args = .ok s1 ∧
      stdinText s.qp.subprocess_.id s1.env.trace =
        s.qp.header_ ++ outText (argsEffects c P s.qp.subprocess_ s.qp.stylesHeader_ args) ∧
      s1.qp.header_ = s.qp.header_ := by
  have hi := Reachable.inv c os P s hr
  obtain ⟨s1, h1, -, hh, -, -, -, ht⟩ := plot_eq c os P s args hargs hos
  refine ⟨s1, h1, ?_, ?_⟩
  · rw [ht, hi.own]
    simp only [stdinText_append, hi.no_text, stdinText_effectEvents_own,
      destroyEvents_stdinText, newEvents_stdinText os P _ _ hos, outText]
    simp
  · rw [hh, Sys.run_header, hi.own]

/-- C1 at the adapter `demoState`: the script of `plot(scatter, point)` is the header buffer
followed by the serialisation of the point. -/
theorem plot_header_persistence_witness :
    Reachable demoClient demoOS .Python demoState ∧
    (∀ a ∈ [Arg.user ⟨2, "S"⟩, Arg.user ⟨10, "p"⟩],
      instantiates demoClient .Python demoS a = true) ∧
    demoOS.popenOk demoState.env.spawned = true ∧
    ∃ s1, plot demoClient demoOS .Python demoState [.user ⟨2, "S"⟩, .user ⟨10, "p"⟩] = .ok s1 ∧
      stdinText demoState.qp.subprocess_.id s1.env.trace =
        demoState.qp.header_ ++
          outText (argsEffects demoClient .Python demoState.qp.subprocess_
            demoState.qp.stylesHeader_ [.user ⟨2, "S"⟩, .user ⟨10, "p"⟩]) ∧
      s1.qp.header_ = demoState.qp.header_ :=
  ⟨demoState_reachable, by decide, rfl,
    plot_header_persistence demoClient demoOS .Python demoState
      [.user ⟨2, "S"⟩, .user ⟨10, "p"⟩] demoState_reachable (by decide) rfl⟩

/-- C7, respawn completeness: in every reachable adapter state, the events of a returning
`plot` call are, in this order, calls of styles and writes to the channel active on entry;
the destruction of that channel (`close` of the pipe write end, then `pclose`); the
construction of the replacement (`pipe`, `popen`, `close` of the read end). At no moment of
the trace do two channels exist, and on return the adapter holds the new channel alone,
bound to its own buffer, to which nothing has been written. -/
theorem plot_respawn_completeness (c : Client) (os : OS) (P : Backend) (s : Sys S)
    (args : List Arg) (hr : Reachable c os P s)
    (hargs : ∀ a ∈ args, instantiates c P S a = true)
    (hos : os.popenOk s.env.spawned = true) :
    ∃ s1 body teardown spawn, plot c os P s args = .ok s1 ∧
      s1.env.trace = s.env.trace ++ body ++ teardown ++ spawn ∧
      (∀ e ∈ body, e.isCall = true ∨ e.isWriteTo s.qp.subprocess_.id = true) ∧
      teardown.filter (fun e => !e.isDiag) =
        [.closeWrite s.qp.subprocess_.id (os.closeWriteOk s.qp.subprocess_.id),
         .pclose s.qp.subprocess_.id] ∧
      spawn.filter (fun e => !e.isDiag) =
        [.pipe s.env.spawned (os.pipeOk s.env.spawned), .popen s.env.spawned P.cmd true,
         .closeRead s.env.spawned (os.closeReadOk s.env.spawned)] ∧
      s1.qp.subprocess_.id = s.env.spawned ∧
      s1.qp.subprocess_.id ≠ s.qp.subprocess_.id ∧
      s1.qp.subprocess_.rdbuf = .own ∧
      (∀ e ∈ s1.env.trace, e.isWriteTo s1.qp.subprocess_.id = false) ∧
      (∀ n, (live (s1.env.trace.take n)).length ≤ 1) ∧
      live s1.env.trace = [s1.qp.subprocess_.id] := by
  have hi := Reachable.inv c os P s hr
  obtain ⟨s1, h1, hp, -, -, -, -, ht⟩ := plot_eq c os P s args hargs hos
  have hi1 := Inv.of_plot c os P s s1 args hi h1
  have hne : s.qp.subprocess_.id ≠ s.env.spawned := Nat.ne_of_lt hi.id_lt
  refine ⟨s1, _, _, _, h1, ht, effectEvents_kind _ _ _, ?_, ?_, ?_, ?_, ?_, ?_, ?_, hi1.one_live⟩
  · rw [destroyEvents_eq]
    cases os.closeWriteOk s.qp.subprocess_.id <;> simp [Event.isDiag]
  · rw [newEvents_eq os P _ hos]
    cases os.pipeOk s.env.spawned <;> cases os.closeReadOk s.env.spawned <;> simp [Event.isDiag]
  · rw [hp]
  · rw [hp]; exact fun h => hne h.symm
  · rw [hp]
  · intro e he
    rw [hp]
    rw [ht] at he
    simp only [List.mem_append] at he
    cases hw : e.isWriteTo s.env.spawned with
    | false => rfl
    | true =>
      exfalso
      have hc := Event.chan_of_isWriteTo _ e hw
      rcases he with ((he | he) | he) | he
      · exact Nat.lt_irrefl _ (hi.chan_lt e he _ hc)
      · rcases effectEvents_chan _ _ _ e he with h0 | h0
        · rw [h0] at hc; cases hc
        · rw [h0] at hc; exact hne (Option.some.inj hc)
      · rcases destroyEvents_chan os _ e he with h0 | h0
        · rw [h0] at hc; cases hc
        · rw [h0] at hc; exact hne (Option.some.inj hc)
      · rw [newEvents_not_write os P _ _ hos e he] at hw
        cases hw
  · exact (neverTwoFrom_iff_take _ _).mp hi1.never_two

/-- C7 at the adapter `demoState`. -/
theorem plot_respawn_completeness_witness :
    Reachable demoClient demoOS .Python demoState ∧
    (∀ a ∈ [Arg.user ⟨2, "S"⟩, Arg.user ⟨10, "p"⟩],
      instantiates demoClient .Python demoS a = true) ∧
    demoOS.popenOk demoState.env.spawned = true ∧
    ∃ s1 body teardown spawn,
      plot demoClient demoOS .Python demoState [.user ⟨2, "S"⟩, .user ⟨10, "p"⟩] = .ok s1 ∧
      s1.env.trace = demoState.env.trace ++ body ++ teardown ++ spawn ∧
      (∀ e ∈ body, e.isCall = true ∨ e.isWriteTo demoState.qp.subprocess_.id = true) ∧
      teardown.filter (fun e => !e.isDiag) =
        [.closeWrite demoState.qp.subprocess_.id
          (demoOS.closeWriteOk demoState.qp.subprocess_.id),
         .pclose demoState.qp.subprocess_.id] ∧
      spawn.filter (fun e => !e.isDiag) =
        [.pipe demoState.env.spawned (demoOS.pipeOk demoState.env.spawned),
         .popen demoState.env.spawned Backend.Python.cmd true,
         .closeRead demoState.env.spawned (demoOS.closeReadOk demoState.env.spawned)] ∧
      s1.qp.subprocess_.id = demoState.env.spawned ∧
      s1.qp.subprocess_.id ≠ demoState.qp.subprocess_.id ∧
      s1.qp.subprocess_.rdbuf = .own ∧
      (∀ e ∈ s1.env.trace, e.isWriteTo s1.qp.subprocess_.id = false) ∧
      (∀ n, (live (s1.env.trace.take n)).length ≤ 1) ∧
      live s1.env.trace = [s1.qp.subprocess_.id] :=
  ⟨demoState_reachable, by decide, rfl,
    plot_respawn_completeness demoClient demoOS .Python demoState
      [.user ⟨2, "S"⟩, .user ⟨10, "p"⟩] demoState_reachable (by decide) rfl⟩


/-- C10, header capture: from any adapter state, a call `addToHeader(args...)` that compiles
returns; it appends exactly the text emitted by processing `args` to the header buffer,
whose earlier content stays as the beginning; its only events are calls of styles and
writes to the data pipe, so no process receives text on its standard input; and the text
stream is bound on return to the buffer it was bound to on entry, so that, when this was
the channel's own buffer, text inserted afterwards reaches the process and leaves the header
buffer as it is. -/
theorem addToHeader_capture (c : Client) (P : Backend) (s : Sys S) (args : List Arg)
    (hargs : ∀ a ∈ args, instantiates c P S a = true) :
    ∃ s1, addToHeader c P s args = .ok s1 ∧
      s1.qp.header_ =
        s.qp.header_ ++ outText (argsEffects c P s.qp.subprocess_ s.qp.styles_ args) ∧
      s1.env.trace =
        s.env.trace ++
          effectEvents .header s.qp.subprocess_.id
            (argsEffects c P s.qp.subprocess_ s.qp.styles_ args) ∧
      (∀ i, stdinText i s1.env.trace = stdinText i s.env.trace) ∧
      s1.qp.subprocess_ = s.qp.subprocess_ ∧
      (s.qp.subprocess_.rdbuf = .own → ∀ t,
        (s1.put (.out t)).env.trace = s1.env.trace ++ [.stdinWrite s1.qp.subprocess_.id t] ∧
        (s1.put (.out t)).qp.header_ = s1.qp.header_) := by
  obtain ⟨s1, h1, hp, hh, -, -, -, ht⟩ := addToHeader_eq c P s args hargs
  refine ⟨s1, h1, hh, ht, ?_, hp, ?_⟩
  · intro i
    rw [ht, stdinText_append, stdinText_effectEvents_header]
    simp
  · intro hown t
    have : s1.qp.subprocess_.rdbuf = .own := by rw [hp]; exact hown
    simp [Sys.put, this]

/-- C10 at the adapter `demoState`, adding a title and a curve to the header. -/
theorem addToHeader_capture_witness :
    (∀ a ∈ [Arg.user ⟨1, "U"⟩, Arg.user ⟨11, "c"⟩],
      instantiates demoClient .Python demoS a = true) ∧
    ∃ s1, addToHeader demoClient .Python demoState [.user ⟨1, "U"⟩, .user ⟨11, "c"⟩] = .ok s1 ∧
      s1.qp.header_ =
        demoState.qp.header_ ++
          outText (argsEffects demoClient .Python demoState.qp.subprocess_ demoState.qp.styles_
            [.user ⟨1, "U"⟩, .user ⟨11, "c"⟩]) ∧
      s1.env.trace =
        demoState.env.trace ++
          effectEvents .header demoState.qp.subprocess_.id
            (argsEffects demoClient .Python demoState.qp.subprocess_ demoState.qp.styles_
              [.user ⟨1, "U"⟩, .user ⟨11, "c"⟩]) ∧
      (∀ i, stdinText i s1.env.trace = stdinText i demoState.env.trace) ∧
      s1.qp.subprocess_ = demoState.qp.subprocess_ ∧
      (demoState.qp.subprocess_.rdbuf = .own → ∀ t,
        (s1.put (.out t)).env.trace = s1.env.trace ++ [.stdinWrite s1.qp.subprocess_.id t] ∧
        (s1.put (.out t)).qp.header_ = s1.qp.header_) :=
  ⟨by decide,
    addToHeader_capture demoClient .Python demoState [.user ⟨1, "U"⟩, .user ⟨11, "c"⟩]
      (by decide)⟩

/-- The text of `PythonHeader` for a channel whose pipe has the descriptors `fds`. -/
theorem outText_bootstrap_python (id : Nat) (fds : Int × Int) (b : Rdbuf) :
    outText (bootstrap .Python ⟨id, fds, b⟩) =
      "# This header has been added by Qplot. See qplot.h\nimport os\nqp_data_in = list()\n\n" ++
        "os.close(" ++ toString fds.2 ++ ")\n" ++
        "qp_data_in.append(os.fdopen(" ++ toString fds.1 ++ ", 'r'))\n" ++ "\n" := by
  have hlit : "# This header has been added by Qplot. See qplot.h\n" ++
      ("import os\n" ++ ("qp_data_in = list()\n" ++ "\n")) =
      "# This header has been added by Qplot. See qplot.h\nimport os\nqp_data_in = list()\n\n" := by
    decide
  have hr : List.range 1 = [0] := rfl
  simp only [bootstrap, PythonHeader, Subprocess.numChannels, hr, List.map_cons,
    List.map_nil, List.flatten_cons, List.flatten_nil, List.append_nil, List.cons_append,
    List.nil_append, outText, Subprocess.fd_w_at, Subprocess.fd_r_at, Subprocess.fd_w,
    Subprocess.fd_r, String.append_assoc]
  rw [← hlit]
  simp only [String.append_assoc, String.append_empty]

/-- C8, bootstrap ordering: a construction `Qplot<P,X>(args...)` that compiles and whose
`popen` succeeds returns with the header buffer equal to the bootstrap text of the backend
followed by the text emitted by processing `args` from the value-initialised table. For
`Python` the bootstrap text is what `PythonHeader` writes, with the descriptors of the
pipe of the channel just constructed; for `Gnuplot`, `Cat` and `Null` it is empty. -/
theorem constructor_bootstrap_ordering (c : Client) (os : OS) (P : Backend)
    (S : List VariantTy) (w : World) (args : List Arg)
    (hargs : ∀ a ∈ args, instantiates c P S a = true)
    (hos : os.popenOk w.spawned = true) :
    ∃ s, Qplot.new c os P S w args = .ok s ∧
      s.qp.subprocess_.filedes_ = os.filedes w.spawned ∧
      s.qp.header_ =
        (if P = .Python then
          "# This header has been added by Qplot. See qplot.h\nimport os\nqp_data_in = list()\n\n" ++
            "os.close(" ++ toString s.qp.subprocess_.fd_w ++ ")\n" ++
            "qp_data_in.append(os.fdopen(" ++ toString s.qp.subprocess_.fd_r ++ ", 'r'))\n" ++
            "\n"
         else "") ++
          outText (argsEffects c P s.qp.subprocess_ (Table.init c S) args) := by
  obtain ⟨s, h, hp, hh, -, -, -, -⟩ := Qplot.new_eq c os P S w args hargs hos
  refine ⟨s, h, by rw [hp], ?_⟩
  rw [hh, hp]
  congr 1
  by_cases hP : P = .Python
  · subst hP
    rw [outText_bootstrap_python]
    rfl
  · rw [if_neg hP]
    cases P <;> first | rfl | exact absurd rfl hP

/-- C8 for `Qplot<Python, ...>(title("T"), line("L"))` at program start. -/
theorem constructor_bootstrap_ordering_witness :
    (∀ a ∈ [Arg.user ⟨1, "T"⟩, Arg.user ⟨3, "L"⟩],
      instantiates demoClient .Python demoS a = true) ∧
    demoOS.popenOk World.init.spawned = true ∧
    ∃ s, Qplot.new demoClient demoOS .Python demoS World.init
        [.user ⟨1, "T"⟩, .user ⟨3, "L"⟩] = .ok s ∧
      s.qp.subprocess_.filedes_ = demoOS.filedes World.init.spawned ∧
      s.qp.header_ =
        (if Backend.Python = .Python then
          "# This header has been added by Qplot. See qplot.h\nimport os\nqp_data_in = list()\n\n" ++
            "os.close(" ++ toString s.qp.subprocess_.fd_w ++ ")\n" ++
            "qp_data_in.append(os.fdopen(" ++ toString s.qp.subprocess_.fd_r ++ ", 'r'))\n" ++
            "\n"
         else "") ++
          outText (argsEffects demoClient .Python s.qp.subprocess_
            (Table.init demoClient demoS) [.user ⟨1, "T"⟩, .user ⟨3, "L"⟩]) :=
  ⟨by decide, rfl,
    constructor_bootstrap_ordering demoClient demoOS .Python demoS World.init
      [.user ⟨1, "T"⟩, .user ⟨3, "L"⟩] (by decide) rfl⟩


/-- C3, header baseline: from any adapter state, a call `addToHeader(args...)` that compiles
returns with the header snapshot equal to the live table as it was on entry, whatever the
arguments; the arguments change the live table only, and a `plot` call after it starts
argument processing from the table of entry. A construction that compiles and whose `popen`
succeeds leaves the value-initialised table as the snapshot, whatever the header
arguments. -/
theorem addToHeader_baseline (c : Client) (os : OS) (P : Backend) (s : Sys S) (w : World)
    (args : List Arg) (hargs : ∀ a ∈ args, instantiates c P S a = true)
    (hos : os.popenOk w.spawned = true) :
    (∃ s1, addToHeader c P s args = .ok s1 ∧
      s1.qp.stylesHeader_ = s.qp.styles_ ∧
      s1.qp.styles_ = argsTable c P s.qp.styles_ args ∧
      s1.replayHeader.reloadStyles.qp.styles_ = s.qp.styles_) ∧
    (∃ s0, Qplot.new c os P S w args = .ok s0 ∧
      s0.qp.stylesHeader_ = Table.init c S ∧
      s0.qp.styles_ = argsTable c P (Table.init c S) args ∧
      s0.replayHeader.reloadStyles.qp.styles_ = Table.init c S) := by
  constructor
  · obtain ⟨s1, h1, -, -, hs, hb, -, -⟩ := addToHeader_eq c P s args hargs
    refine ⟨s1, h1, hb, hs, ?_⟩
    rw [Sys.replayHeader_reloadStyles]
    simp [Sys.run_stylesHeader, Sys.apply_stylesHeader, hb]
  · obtain ⟨s0, h0, -, -, hs, hb, -, -⟩ := Qplot.new_eq c os P S w args hargs hos
    refine ⟨s0, h0, hb, hs, ?_⟩
    rw [Sys.replayHeader_reloadStyles]
    simp [Sys.run_stylesHeader, Sys.apply_stylesHeader, hb]

/-- C3 with the header arguments `title("T")`, `line("L")`, added to the adapter `demoState`
and given to a construction at program start: the line style is in the live table
afterwards and not in the snapshot. -/
theorem addToHeader_baseline_witness :
    (∀ a ∈ [Arg.user ⟨1, "T"⟩, Arg.user ⟨3, "L"⟩],
      instantiates demoClient .Python demoS a = true) ∧
    demoOS.popenOk World.init.spawned = true ∧
    (∃ s1, addToHeader demoClient .Python demoState [.user ⟨1, "T"⟩, .user ⟨3, "L"⟩] = .ok s1 ∧
      s1.qp.stylesHeader_ = demoState.qp.styles_ ∧
      s1.qp.styles_ =
        argsTable demoClient .Python demoState.qp.styles_ [.user ⟨1, "T"⟩, .user ⟨3, "L"⟩] ∧
      s1.replayHeader.reloadStyles.qp.styles_ = demoState.qp.styles_) ∧
    (∃ s0, Qplot.new demoClient demoOS .Python demoS World.init
        [.user ⟨1, "T"⟩, .user ⟨3, "L"⟩] = .ok s0 ∧
      s0.qp.stylesHeader_ = Table.init demoClient demoS ∧
      s0.qp.styles_ =
        argsTable demoClient .Python (Table.init demoClient demoS)
          [.user ⟨1, "T"⟩, .user ⟨3, "L"⟩] ∧
      s0.replayHeader.reloadStyles.qp.styles_ = Table.init demoClient demoS) :=
  ⟨by decide, rfl,
    addToHeader_baseline demoClient demoOS .Python demoState World.init
      [.user ⟨1, "T"⟩, .user ⟨3, "L"⟩] (by decide) rfl⟩

/-- C2, baseline isolation: after any sequence of `plot` calls the header snapshot is what
it was before them; a further `plot` call that compiles and whose `popen` succeeds returns,
starts argument processing with the live table equal to that snapshot, leaves the snapshot
as it is, and its events are those of its arguments processed from the snapshot of before
the earlier calls. When the call has no object-style argument, every argument is processed
against that snapshot itself. -/
theorem plot_baseline_isolation (c : Client) (os : OS) (P : Backend) (s s1 : Sys S)
    (calls : List (List Arg)) (args : List Arg)
    (hcalls : plots c os P s calls = .ok s1)
    (hargs : ∀ a ∈ args, instantiates c P S a = true)
    (hos : os.popenOk s1.env.spawned = true) :
    s1.qp.stylesHeader_ = s.qp.stylesHeader_ ∧
    s1.replayHeader.reloadStyles.qp.styles_ = s.qp.stylesHeader_ ∧
    s1.replayHeader.reloadStyles.qp.styles_ = s1.replayHeader.reloadStyles.qp.stylesHeader_ ∧
    ∃ s2, plot c os P s1 args = .ok s2 ∧
      s2.qp.stylesHeader_ = s.qp.stylesHeader_ ∧
      s2.env.trace =
        s1.env.trace ++
          effectEvents s1.qp.subprocess_.rdbuf s1.qp.subprocess_.id
            (.put (.out s1.qp.header_) ::
              argsEffects c P s1.qp.subprocess_ s.qp.stylesHeader_ args) ++
          destroyEvents os s1.qp.subprocess_ ++ newEvents os P s1.env.spawned ∧
      ((∀ a ∈ args, is_object_style c P a = false) →
        argsEffects c P s1.qp.subprocess_ s.qp.stylesHeader_ args =
          (args.map (argEffects c P s1.qp.subprocess_ s.qp.stylesHeader_)).flatten) := by
  have hb := plots_stylesHeader c os P s s1 calls hcalls
  have hstart : s1.replayHeader.reloadStyles.qp.styles_ = s1.qp.stylesHeader_ := by
    rw [Sys.replayHeader_reloadStyles]; rfl
  have hstart2 : s1.replayHeader.reloadStyles.qp.stylesHeader_ = s1.qp.stylesHeader_ := by
    rw [Sys.replayHeader_reloadStyles]
    simp [Sys.run_stylesHeader, Sys.apply_stylesHeader]
  obtain ⟨s2, h2, -, -, -, hb2, -, ht2⟩ := plot_eq c os P s1 args hargs hos
  refine ⟨hb, by rw [hstart, hb], by rw [hstart, hstart2], s2, h2, by rw [hb2, hb], ?_, ?_⟩
  · rw [ht2, hb]
  · exact argsEffects_of_no_object_style c P _ _ args

/-- C2 at the adapter `demoState`: after `plot(scatter, point)` a second call
`plot(point, curve)` is processed from the snapshot of before the first call. -/
theorem plot_baseline_isolation_witness :
    ∃ s1, plots demoClient demoOS .Python demoState [[.user ⟨2, "S"⟩, .user ⟨10, "p"⟩]] = .ok s1 ∧
    (∀ a ∈ [Arg.user ⟨10, "q"⟩, Arg.user ⟨11, "c"⟩],
      instantiates demoClient .Python demoS a = true) ∧
    demoOS.popenOk s1.env.spawned = true ∧
    s1.qp.stylesHeader_ = demoState.qp.stylesHeader_ ∧
    s1.replayHeader.reloadStyles.qp.styles_ = demoState.qp.stylesHeader_ ∧
    s1.replayHeader.reloadStyles.qp.styles_ = s1.replayHeader.reloadStyles.qp.stylesHeader_ ∧
    ∃ s2, plot demoClient demoOS .Python s1 [.user ⟨10, "q"⟩, .user ⟨11, "c"⟩] = .ok s2 ∧
      s2.qp.stylesHeader_ = demoState.qp.stylesHeader_ ∧
      s2.env.trace =
        s1.env.trace ++
          effectEvents s1.qp.subprocess_.rdbuf s1.qp.subprocess_.id
            (.put (.out s1.qp.header_) ::
              argsEffects demoClient .Python s1.qp.subprocess_ demoState.qp.stylesHeader_
                [.user ⟨10, "q"⟩, .user ⟨11, "c"⟩]) ++
          destroyEvents demoOS s1.qp.subprocess_ ++ newEvents demoOS .Python s1.env.spawned ∧
      ((∀ a ∈ [Arg.user ⟨10, "q"⟩, Arg.user ⟨11, "c"⟩],
          is_object_style demoClient .Python a = false) →
        argsEffects demoClient .Python s1.qp.subprocess_ demoState.qp.stylesHeader_
            [.user ⟨10, "q"⟩, .user ⟨11, "c"⟩] =
          ([Arg.user ⟨10, "q"⟩, Arg.user ⟨11, "c"⟩].map
            (argEffects demoClient .Python s1.qp.subprocess_
              demoState.qp.stylesHeader_)).flatten) :=
  ⟨_, rfl, by decide, rfl,
    plot_baseline_isolation demoClient demoOS .Python demoState _
      [[.user ⟨2, "S"⟩, .user ⟨10, "p"⟩]] [.user ⟨10, "q"⟩, .user ⟨11, "c"⟩] rfl
      (by decide) rfl⟩


/-- C4, style-update scoping, on `TupleUpdater::update` as the spec describes it: processing
one argument `style` whose type is an object-style (alone or also a canvas-style) returns,
and afterwards every slot whose variant type has the type of `style` among its
alternatives holds `style`, and every other slot holds what it held before; so for slots
`k1`, `k2` that have the type and a slot `k3` that has not, `k1` and `k2` hold `style` and
`k3` is as it was. -/
theorem style_update_scoping (c : Client) (P : Backend) (s : Sys S) (style : Value)
    (ho : c.is_object_style style.ty P = true) :
    ∃ s1, processArgs c P s [.user style] = .ok s1 ∧
      (∀ i, style.ty ∈ (S.get i).alts → s1.qp.styles_ i = style) ∧
      (∀ i, style.ty ∉ (S.get i).alts → s1.qp.styles_ i = s.qp.styles_ i) ∧
      (∀ k1 k2 k3, style.ty ∈ (S.get k1).alts → style.ty ∈ (S.get k2).alts →
        style.ty ∉ (S.get k3).alts →
        s1.qp.styles_ k1 = style ∧ s1.qp.styles_ k2 = style ∧
          s1.qp.styles_ k3 = s.qp.styles_ k3) := by
  have hinst : ∀ a ∈ [Arg.user style], instantiates c P S a = true := by
    intro a ha
    rw [List.mem_singleton.mp ha]
    simp [instantiates, is_object_style, ho]
  have htbl : ∀ i, argsTable c P s.qp.styles_ [.user style] i =
      if style.ty ∈ (S.get i).alts then style else s.qp.styles_ i := by
    intro i
    simp only [argsTable, List.foldl_cons, List.foldl_nil, argTable, is_object_style, ho,
      if_true, TupleUpdater.update]
  refine ⟨_, processArgs_eq c P s _ hinst, ?_, ?_, ?_⟩
  · intro i hi
    show argsTable c P s.qp.styles_ [.user style] i = style
    rw [htbl, if_pos hi]
  · intro i hi
    show argsTable c P s.qp.styles_ [.user style] i = s.qp.styles_ i
    rw [htbl, if_neg hi]
  · intro k1 k2 k3 h1 h2 h3
    refine ⟨?_, ?_, ?_⟩
    · show argsTable c P s.qp.styles_ [.user style] k1 = style
      rw [htbl, if_pos h1]
    · show argsTable c P s.qp.styles_ [.user style] k2 = style
      rw [htbl, if_pos h2]
    · show argsTable c P s.qp.styles_ [.user style] k3 = s.qp.styles_ k3
      rw [htbl, if_neg h3]

/-- C4 at the adapter `demoState` with a scatter style, an alternative for points and
curves and not for histograms. -/
theorem style_update_scoping_witness :
    demoClient.is_object_style (Value.mk 2 "S").ty .Python = true ∧
    ∃ s1, processArgs demoClient .Python demoState [.user ⟨2, "S"⟩] = .ok s1 ∧
      (∀ i, (Value.mk 2 "S").ty ∈ (demoS.get i).alts → s1.qp.styles_ i = ⟨2, "S"⟩) ∧
      (∀ i, (Value.mk 2 "S").ty ∉ (demoS.get i).alts →
        s1.qp.styles_ i = demoState.qp.styles_ i) ∧
      (∀ k1 k2 k3, (Value.mk 2 "S").ty ∈ (demoS.get k1).alts →
        (Value.mk 2 "S").ty ∈ (demoS.get k2).alts →
        (Value.mk 2 "S").ty ∉ (demoS.get k3).alts →
        s1.qp.styles_ k1 = ⟨2, "S"⟩ ∧ s1.qp.styles_ k2 = ⟨2, "S"⟩ ∧
          s1.qp.styles_ k3 = demoState.qp.styles_ k3) :=
  ⟨rfl, style_update_scoping demoClient .Python demoState ⟨2, "S"⟩ rfl⟩


/-- The style chosen in the example of C5 is the scatter style of the same call. -/
theorem styleFor_demo :
    styleFor demoClient .Python demoState.qp.stylesHeader_ (⟨0, by decide⟩ : Fin demoS.length)
      [Arg.user ⟨2, "S"⟩, Arg.user ⟨4, "B"⟩] = ⟨2, "S"⟩ := by
  decide


end claims

end qp
